import Mathlib

/-!
# BlockFinal: coordination service (`index.js`) and provider agent (`provider.js`)

A shallow embedding of the event projector (offerings and agreements), the
provider registry, the fragment dispatcher, the agreement query and the
provider agent's store handler, followed by the properties proved about them.

Conventions.
* A MongoDB collection is the list of its documents in natural (insertion)
  order.
* The `providers` object is the list of its own properties in creation order.
* Text is a `List Char` wherever it is taken apart character by character
  (base64, hex, paths, numeric literals) and a `String` where it is only
  compared.
* A byte is a `Fin 256`.
* A finite JavaScript number is the rational number it denotes; arithmetic on
  numbers rounds to binary64.
-/

namespace BlockFinal

/-! ## Event projector: offerings (index.js, lines 90-149 and 244-252) -/

/-- A document of the `StorageOffering` collection. The numeric fields hold the
contract's unsigned integers. -/
structure Offering where
  offeringId : Nat
  provider : String
  capacity : Nat
  pricePerGBPerDay : Nat
  isAvailable : Bool
deriving DecidableEq, Repr

/-- The `StorageOffering` collection. -/
abbrev OfferingStore := List Offering

/-- Modelled from the spec: the schema of `models/StorageOffering.js`, which is
required by index.js but is not among the sources. The one property of it the
handlers depend on is whether `offeringId` carries a unique index; section 3 of
the specification lists `offeringId` as unique, which `specSchema` records. -/
structure OfferingSchema where
  uniqueOfferingId : Bool
deriving DecidableEq, Repr

/-- Modelled from the spec: the schema of `models/StorageOffering.js` with
`offeringId` unique, as section 3 of the specification declares it. -/
def specSchema : OfferingSchema := ⟨true⟩

/-- The `returnValues` of the three offering events of the contract. -/
inductive OfferingEvent where
  | OfferingCreated (offeringId : Nat) (provider : String) (capacity pricePerGBPerDay : Nat)
  | OfferingUpdated (offeringId : Nat) (provider : String) (capacity pricePerGBPerDay : Nat)
  | OfferingRemoved (offeringId : Nat) (provider : String)
deriving DecidableEq, Repr

/-- Mongoose `doc.save()` of a new document: an insert at the end of the
collection, rejected with a duplicate-key error when the schema has a unique
index on `offeringId` and a document with that `offeringId` is stored. -/
def save (sch : OfferingSchema) (doc : Offering) (s : OfferingStore) : Except String OfferingStore :=
  if sch.uniqueOfferingId && s.any (fun o => o.offeringId == doc.offeringId) then
    .error "E11000 duplicate key error"
  else
    .ok (s ++ [doc])

/-- Mongoose `Model.findOneAndUpdate(filter, update)` without the `upsert`
option: the first document that matches the filter is updated in place; when no
document matches, nothing is written and no error is raised. -/
def findOneAndUpdate (filter : Offering → Bool) (update : Offering → Offering) :
    OfferingStore → OfferingStore
  | [] => []
  | o :: rest =>
    if filter o then update o :: rest else o :: findOneAndUpdate filter update rest

/-- The `OfferingCreated` handler (index.js 91-110): build a document with
`isAvailable: true` and `save()` it; an error of the save is caught and logged,
which leaves the collection as it was. -/
def onOfferingCreated (sch : OfferingSchema) (offeringId : Nat) (provider : String)
    (capacity pricePerGBPerDay : Nat) (s : OfferingStore) : OfferingStore :=
  match save sch ⟨offeringId, provider, capacity, pricePerGBPerDay, true⟩ s with
  | .ok s' => s'
  | .error _ => s

/-- The `OfferingUpdated` handler (index.js 114-130):
`findOneAndUpdate({ offeringId }, { capacity, pricePerGBPerDay }, { new: true })`. -/
def onOfferingUpdated (offeringId : Nat) (capacity pricePerGBPerDay : Nat)
    (s : OfferingStore) : OfferingStore :=
  findOneAndUpdate (fun o => o.offeringId == offeringId)
    (fun o => { o with capacity := capacity, pricePerGBPerDay := pricePerGBPerDay }) s

/-- The `OfferingRemoved` handler (index.js 134-149):
`findOneAndUpdate({ offeringId }, { isAvailable: false })`. -/
def onOfferingRemoved (offeringId : Nat) (s : OfferingStore) : OfferingStore :=
  findOneAndUpdate (fun o => o.offeringId == offeringId)
    (fun o => { o with isAvailable := false }) s

/-- One offering event handled by its subscription. -/
def processOfferingEvent (sch : OfferingSchema) (s : OfferingStore) : OfferingEvent → OfferingStore
  | .OfferingCreated k p c pr => onOfferingCreated sch k p c pr s
  | .OfferingUpdated k _ c pr => onOfferingUpdated k c pr s
  | .OfferingRemoved k _ => onOfferingRemoved k s

/-- A sequence of offering events handled in delivery order. -/
def processOfferingEvents (sch : OfferingSchema) (s : OfferingStore) (evs : List OfferingEvent) :
    OfferingStore :=
  evs.foldl (processOfferingEvent sch) s

/-- The result of `GET /offerings` (index.js 244-252):
`StorageOffering.find({ isAvailable: true })`. -/
def getOfferings (s : OfferingStore) : List Offering :=
  s.filter (fun o => o.isAvailable)

/-- The documents of the collection whose `offeringId` is `k`. -/
def recordsFor (k : Nat) (s : OfferingStore) : List Offering :=
  s.filter (fun o => o.offeringId == k)

/-- The capacity and price an event carries, when it carries them. -/
def OfferingEvent.terms : OfferingEvent → Option (Nat × Nat)
  | .OfferingCreated _ _ c pr => some (c, pr)
  | .OfferingUpdated _ _ c pr => some (c, pr)
  | .OfferingRemoved _ _ => none

/-! ## Provider registry (index.js, lines 47-86 and 361-370) -/

/-- The name of the prototype accessor of a plain object. -/
def protoKey : String := "__proto__"

/-- A connection id (`socket.id`): a string issued by socket.io. The registry
is the plain object `providers = {}`; `__proto__` is the one name whose
assignment on such an object installs a prototype and creates no own property,
and it is never issued as a connection id, so the type leaves it out. Every
other string is a connection id here. -/
abbrev ConnId := { s : String // s ≠ protoKey }

/-- The value stored under a connection id (index.js 58-62). The `socket`
object is represented by the id of the connection it belongs to. -/
structure ProviderEntry where
  socket : ConnId
  providerAddress : String
  availableStorage : Nat
deriving DecidableEq, Repr

/-- The `providers` object: its own properties in creation order. -/
abbrev Registry := List (ConnId × ProviderEntry)

/-- The assignment `providers[id] = entry`: an existing property keeps its
place and takes the new value, a new property is created last. -/
def setProp (id : ConnId) (entry : ProviderEntry) : Registry → Registry
  | [] => [(id, entry)]
  | kv :: rest => if kv.1 = id then (id, entry) :: rest else kv :: setProp id entry rest

/-- The statement `delete providers[id]`; deleting a missing property does
nothing. -/
def deleteProp (id : ConnId) : Registry → Registry
  | [] => []
  | kv :: rest => if kv.1 = id then deleteProp id rest else kv :: deleteProp id rest

/-- The lookup `providers[id]` of an own property. -/
def getProp (id : ConnId) : Registry → Option ProviderEntry
  | [] => none
  | kv :: rest => if kv.1 = id then some kv.2 else getProp id rest

/-- The array index a property name denotes, if any: the name is the canonical
decimal rendering of an integer below `2^32 - 1`. -/
def arrayIndex? (name : String) : Option Nat :=
  let cs := name.toList
  if cs.isEmpty then none
  else if !cs.all Char.isDigit then none
  else if cs.head? == some '0' && cs.length > 1 then none
  else
    let n := cs.foldl (fun acc c => 10 * acc + (c.toNat - 48)) 0
    if n < 4294967295 then some n else none

/-- Insertion of a key into a list of keys ordered by array index. -/
def insertByIndex (k : ConnId) : List ConnId → List ConnId
  | [] => [k]
  | x :: rest =>
    if (arrayIndex? k.val).getD 0 ≤ (arrayIndex? x.val).getD 0 then k :: x :: rest
    else x :: insertByIndex k rest

/-- Keys ordered by ascending array index. -/
def sortByIndex : List ConnId → List ConnId
  | [] => []
  | k :: rest => insertByIndex k (sortByIndex rest)

/-- The result of `Object.keys(providers)`: the own property names that are
array indices in ascending numeric order, then the other names in creation
order. -/
def objectKeys (providers : Registry) : List ConnId :=
  let names := providers.map (·.1)
  sortByIndex (names.filter (fun k => (arrayIndex? k.val).isSome))
    ++ names.filter (fun k => !(arrayIndex? k.val).isSome)

/-- The `provider_registration` handler (index.js 55-64), run on the socket
whose id is `socketId`. -/
def onProviderRegistration (socketId : ConnId) (providerAddress : String)
    (availableStorage : Nat) (providers : Registry) : Registry :=
  setProp socketId ⟨socketId, providerAddress, availableStorage⟩ providers

/-- The `disconnect` handler (index.js 81-85). -/
def onDisconnect (socketId : ConnId) (providers : Registry) : Registry :=
  deleteProp socketId providers

/-- The function `selectProvider` (index.js 362-370). -/
def selectProvider (providers : Registry) : Option ProviderEntry :=
  let providerIds := objectKeys providers
  match providerIds with
  | [] => none
  | first :: _ => getProp first providers

/-- A registry event: a registration message or a disconnect of a connection. -/
inductive RegistryOp where
  | register (socketId : ConnId) (providerAddress : String) (availableStorage : Nat)
  | disconnect (socketId : ConnId)
deriving DecidableEq, Repr

/-- One registry event handled. -/
def registryStep (providers : Registry) : RegistryOp → Registry
  | .register id a st => onProviderRegistration id a st providers
  | .disconnect id => onDisconnect id providers

/-- The registry after a sequence of events, starting from `providers = {}`. -/
def runRegistry (ops : List RegistryOp) : Registry :=
  ops.foldl registryStep []

/-- The time at which each connection now in the registry was registered, in
the words of the specification: a registration of a connection that is not in
the registry enters it at the current time, a registration of one that is
already in keeps its time (the record is overwritten), a disconnect takes the
connection out. `t` is the time of the first event of `ops`. -/
def regTimesFrom (t : Nat) (times : ConnId → Option Nat) : List RegistryOp → ConnId → Option Nat
  | [] => times
  | .register id _ _ :: ops =>
    regTimesFrom (t + 1)
      (fun c => if c = id then (match times id with | some t0 => some t0 | none => some t)
                else times c) ops
  | .disconnect id :: ops =>
    regTimesFrom (t + 1) (fun c => if c = id then none else times c) ops

/-- Registration times after the events `ops`, starting from the empty
registry: `regTime ops c = some t` when `c` is in the registry and entered it
with event number `t`. -/
def regTime (ops : List RegistryOp) : ConnId → Option Nat :=
  regTimesFrom 0 (fun _ => none) ops

/-- The relation kept between the registry object and the registration times:
the connections with a time are the property names of the object, names
created earlier carry earlier times, every time lies before the current time
`t`, and every entry is stored under the id of its own socket. -/
def RegInv (r : Registry) (times : ConnId → Option Nat) (t : Nat) : Prop :=
  (∀ c, times c = none ↔ c ∉ r.map (·.1)) ∧
  (r.map (·.1)).Pairwise
    (fun a b => ∃ ta tb, times a = some ta ∧ times b = some tb ∧ ta < tb) ∧
  (∀ c ta, times c = some ta → ta < t) ∧
  (∀ kv ∈ r, kv.2.socket = kv.1)

/-! ## Buffers: hex and base64 text (Node `Buffer`) -/

/-- One byte of a `Buffer`. -/
abbrev Byte := Fin 256

/-- The byte with value `n` modulo 256. -/
def byteOf (n : Nat) : Byte := ⟨n % 256, Nat.mod_lt _ (by decide)⟩

/-- The lower-case hexadecimal digit of a value below 16. -/
def hexDigit (n : Nat) : Char :=
  if n < 10 then Char.ofNat (48 + n) else Char.ofNat (87 + n)

/-- The rendering `buf.toString('hex')`: two digits for each byte. -/
def toHex : List Byte → List Char
  | [] => []
  | b :: rest => hexDigit (b.val / 16) :: hexDigit (b.val % 16) :: toHex rest

/-- A character of `0-9a-f`. -/
def isHexChar (c : Char) : Bool :=
  (48 ≤ c.toNat && c.toNat ≤ 57) || (97 ≤ c.toNat && c.toNat ≤ 102)

/-- The base64 alphabet. -/
def b64Alphabet : List Char :=
  "ABCDEFGHIJKLMNOPQRSTUVWXYZabcdefghijklmnopqrstuvwxyz0123456789+/".toList

/-- The base64 character of a 6-bit value. -/
def b64Char (n : Nat) : Char := b64Alphabet.getD n 'A'

/-- The rendering `buf.toString('base64')`: four characters for every three
bytes, the last group padded with `=`. -/
def toBase64 : List Byte → List Char
  | a :: b :: c :: rest =>
    b64Char (a.val / 4) :: b64Char ((a.val % 4) * 16 + b.val / 16)
      :: b64Char ((b.val % 16) * 4 + c.val / 64) :: b64Char (c.val % 64) :: toBase64 rest
  | [a, b] =>
    [b64Char (a.val / 4), b64Char ((a.val % 4) * 16 + b.val / 16),
     b64Char ((b.val % 16) * 4), '=']
  | [a] => [b64Char (a.val / 4), b64Char ((a.val % 4) * 16), '=', '=']
  | [] => []

/-- The 6-bit value of a character for Node's base64 decoder, which accepts the
standard and the URL-safe alphabet; `none` for any other character. -/
def b64Val (c : Char) : Option Nat :=
  let n := c.toNat
  if 65 ≤ n ∧ n ≤ 90 then some (n - 65)
  else if 97 ≤ n ∧ n ≤ 122 then some (n - 71)
  else if 48 ≤ n ∧ n ≤ 57 then some (n + 4)
  else if n = 43 ∨ n = 45 then some 62
  else if n = 47 ∨ n = 95 then some 63
  else none

/-- The UTF-16 code units of a character: one unit below U+10000, a surrogate
pair above. -/
def utf16Units (c : Char) : List Nat :=
  if c.toNat < 65536 then [c.toNat]
  else [55296 + (c.toNat - 65536) / 1024, 56320 + (c.toNat - 65536) % 1024]

/-- The characters Node's base64 decoder looks at: the low byte of each UTF-16
code unit of the text. -/
def lowByteChars : List Char → List Char
  | [] => []
  | c :: rest => (utf16Units c).map (fun u => Char.ofNat (u % 256)) ++ lowByteChars rest

/-- The 6-bit values Node's base64 decoder reads from a text: it takes the low
byte of each code unit, stops at the first `=`, and skips what lies outside the
alphabets. -/
def sextets (text : List Char) : List Nat :=
  ((lowByteChars text).takeWhile (fun c => c != '=')).filterMap b64Val

/-- The bytes of a sequence of 6-bit values: three bytes for every four values,
two bytes for three remaining values, one byte for two. -/
def fromSextets : List Nat → List Byte
  | w :: x :: y :: z :: rest =>
    byteOf (w * 4 + x / 16) :: byteOf ((x % 16) * 16 + y / 4) :: byteOf ((y % 4) * 64 + z)
      :: fromSextets rest
  | [w, x, y] => [byteOf (w * 4 + x / 16), byteOf ((x % 16) * 16 + y / 4)]
  | [w, x] => [byteOf (w * 4 + x / 16)]
  | [_] => []
  | [] => []

/-- The bytes `Buffer.from(text, 'base64')`, which is what
`fs.writeFileSync(path, text, 'base64')` writes. -/
def fromBase64 (text : List Char) : List Byte :=
  fromSextets (sextets text)

/-- The 6-bit values of a byte sequence, as `toBase64` forms them. -/
def toSextets : List Byte → List Nat
  | a :: b :: c :: rest =>
    a.val / 4 :: ((a.val % 4) * 16 + b.val / 16) :: ((b.val % 16) * 4 + c.val / 64)
      :: c.val % 64 :: toSextets rest
  | [a, b] => [a.val / 4, (a.val % 4) * 16 + b.val / 16, (b.val % 16) * 4]
  | [a] => [a.val / 4, (a.val % 4) * 16]
  | [] => []

/-- The padding `toBase64` appends to a byte sequence. -/
def b64Padding (n : Nat) : List Char :=
  if n % 3 = 1 then ['=', '='] else if n % 3 = 2 then ['='] else []

/-! ## Paths (Node `path`, POSIX flavour) -/

/-- The segments of a path: the pieces between its `/` characters. -/
def splitSlash : List Char → List (List Char)
  | [] => [[]]
  | c :: rest =>
    if c = '/' then [] :: splitSlash rest
    else
      match splitSlash rest with
      | [] => [[c]]
      | seg :: segs => (c :: seg) :: segs

/-- Segments joined with `/`. -/
def joinSlash : List (List Char) → List Char
  | [] => []
  | [seg] => seg
  | seg :: rest => seg ++ '/' :: joinSlash rest

/-- One segment consumed by `normalizeString` of Node's `path`: an empty
segment and `.` are dropped; `..` removes the last segment kept so far, unless
there is none or it is itself `..`, in which case it is kept when the path may
climb above its root and dropped otherwise; any other segment is kept. -/
def normStep (allowAboveRoot : Bool) (res : List (List Char)) (seg : List Char) :
    List (List Char) :=
  if seg = [] ∨ seg = ['.'] then res
  else if seg = ['.', '.'] then
    match res.getLast? with
    | some last =>
      if last = ['.', '.'] then (if allowAboveRoot then res ++ [seg] else res)
      else res.dropLast
    | none => if allowAboveRoot then res ++ [seg] else res
  else res ++ [seg]

/-- The function `normalizeString(path, allowAboveRoot, '/')` of Node's `path`. -/
def normalizeString (path : List Char) (allowAboveRoot : Bool) : List Char :=
  joinSlash ((splitSlash path).foldl (normStep allowAboveRoot) [])

/-- The function `path.posix.normalize`. -/
def normalize (path : List Char) : List Char :=
  if path = [] then ['.']
  else
    let isAbsolute := path.head? == some '/'
    let trailingSeparator := path.getLast? == some '/'
    let p := normalizeString path (!isAbsolute)
    if p = [] then
      if isAbsolute then ['/'] else if trailingSeparator then ['.', '/'] else ['.']
    else
      let p := if trailingSeparator then p ++ ['/'] else p
      if isAbsolute then '/' :: p else p

/-- The function `path.posix.join`: the non-empty arguments joined with `/`,
then normalized. -/
def pathJoin (args : List (List Char)) : List Char :=
  match args.filter (fun a => a ≠ []) with
  | [] => ['.']
  | parts => normalize (joinSlash parts)

/-- Segments each followed by `/`: what `joinSlash` puts in front of a last
segment. -/
def slashPrefix : List (List Char) → List Char
  | [] => []
  | seg :: rest => seg ++ '/' :: slashPrefix rest

/-! ## Fragment dispatcher (index.js, lines 310-359) -/

/-- The record multer leaves in `req.file`: where the upload was saved and the
name the client gave it. -/
structure UploadedFile where
  path : String
  originalname : String
deriving DecidableEq, Repr

/-- The payload of a `store_file` message. -/
structure StoreFileMsg where
  agreementId : String
  fileId : String
  encryptedFragment : String
  originalFileName : String
deriving DecidableEq, Repr

/-- What the upload handler does: the `store_file` messages it emits, each with
the socket it is emitted on, and the HTTP response. -/
structure UploadResult where
  status : Nat
  body : String
  emitted : List (ConnId × StoreFileMsg)
deriving DecidableEq, Repr

/-- The call `crypto.randomBytes(size)`; `entropy i` is the value of byte `i`. -/
def randomBytes (size : Nat) (entropy : Nat → Byte) : List Byte :=
  (List.range size).map entropy

/-- The function `generateFileId` (index.js 357-359). -/
def generateFileId (entropy : Nat → Byte) : String :=
  String.mk (toHex (randomBytes 16 entropy))

/-- The function `encryptFile` (index.js 349-354); `readFileSync` is the file
system, which either returns the bytes of a file or throws. -/
def encryptFile (readFileSync : String → Except String (List Byte)) (filePath : String) :
    Except String String :=
  match readFileSync filePath with
  | .ok data => .ok (String.mk (toBase64 data))
  | .error err => .error err

/-- The `POST /upload` handler (index.js 310-346). A request without a file
makes `file.path` throw; that and a failed read end in the `catch` branch. -/
def postUpload (providers : Registry) (readFileSync : String → Except String (List Byte))
    (entropy : Nat → Byte) (file : Option UploadedFile) : UploadResult :=
  match file with
  | none => ⟨500, "Error processing file upload", []⟩
  | some file =>
    match encryptFile readFileSync file.path with
    | .error _ => ⟨500, "Error processing file upload", []⟩
    | .ok encryptedFragment =>
      let fileId := generateFileId entropy
      match selectProvider providers with
      | none => ⟨500, "No available providers", []⟩
      | some selectedProvider =>
        ⟨200, "File uploaded and distributed to provider",
          [(selectedProvider.socket,
            ⟨"agreementId", fileId, encryptedFragment, file.originalname⟩)]⟩

/-! ## Provider agent (provider.js, lines 62-91) -/

/-- The constant `PROVIDER_ADDRESS` (provider.js 12). -/
def PROVIDER_ADDRESS : String := "0xf8d63f87E77Ae507855D82Fd1EEBAbCadCBf72df"

/-- The constant `STORAGE_DIR` (provider.js 11); `dirname` is the directory of
the script. -/
def STORAGE_DIR (dirname : String) : List Char :=
  pathJoin [dirname.toList, "storage".toList]

/-- The `filePath` of the `store_file` handler (provider.js 68). -/
def storeFilePath (dirname fileId originalFileName : String) : List Char :=
  pathJoin [STORAGE_DIR dirname, (fileId ++ "_" ++ originalFileName).toList]

/-- The signal the provider agent sends back. -/
inductive ProviderSignal where
  | file_stored (agreementId fileId providerAddress : String)
  | storage_error (agreementId fileId providerAddress error : String)
deriving DecidableEq, Repr

/-- What the `store_file` handler does: the path and the bytes it hands to
`fs.writeFileSync`, and the signal it emits. -/
structure StoreFileOutcome where
  filePath : List Char
  data : List Byte
  signal : ProviderSignal
deriving DecidableEq, Repr

/-- The `store_file` handler (provider.js 63-91); `writeFileSync` is the file
system, which either accepts the write or throws. -/
def onStoreFile (dirname : String) (writeFileSync : List Char → List Byte → Except String Unit)
    (msg : StoreFileMsg) : StoreFileOutcome :=
  let filePath := storeFilePath dirname msg.fileId msg.originalFileName
  let data := fromBase64 msg.encryptedFragment.toList
  match writeFileSync filePath data with
  | .ok _ => ⟨filePath, data, .file_stored msg.agreementId msg.fileId PROVIDER_ADDRESS⟩
  | .error err => ⟨filePath, data, .storage_error msg.agreementId msg.fileId PROVIDER_ADDRESS err⟩

/-! ## Event projector: agreements (index.js, lines 152-186)

JavaScript numbers are IEEE 754 binary64 values. A finite one is represented by
the rational number it denotes, and every arithmetic operation is the exact
operation followed by `roundDouble`, rounding to nearest with ties to even. -/

/-- The position of the leading binary digit of `n`, by halving; `fuel` bounds
the number of halvings. -/
def log2Aux : Nat → Nat → Nat
  | 0, _ => 0
  | fuel + 1, n => if 2 ≤ n then log2Aux fuel (n / 2) + 1 else 0

/-- The integer part of the binary logarithm of `n` (0 for `n = 0`). -/
def floorLog2 (n : Nat) : Nat := log2Aux n n

/-- The binary exponent of the positive fraction `n / d`: the `e` with
`2^e ≤ n / d < 2^(e+1)`. -/
def binade (n d : Nat) : Int :=
  let a := floorLog2 n
  let b := floorLog2 d
  if b ≤ a then
    if d * 2 ^ (a - b) ≤ n then ((a - b : Nat) : Int) else ((a - b : Nat) : Int) - 1
  else
    if d ≤ n * 2 ^ (b - a) then -((b - a : Nat) : Int) else -((b - a : Nat) : Int) - 1

/-- The integer nearest to `N / D`, the even one of the two when `N / D` lies
half way. -/
def divRoundEven (N D : Nat) : Nat :=
  let q := N / D
  let r := N % D
  if 2 * r < D then q else if D < 2 * r then q + 1 else if q % 2 = 0 then q else q + 1

/-- The binary64 value nearest to the positive fraction `n / d`, as a
significand `m` and an exponent `k` standing for `m * 2^k`: 53 significant
bits, and no exponent below that of the subnormal numbers. -/
def roundCore (n d : Nat) : Nat × Int :=
  let k := max (binade n d) (-1022) - 52
  if 0 ≤ k then (divRoundEven n (d * 2 ^ k.toNat), k)
  else (divRoundEven (n * 2 ^ (-k).toNat) d, k)

/-- Rounding of a rational number to binary64, to nearest with ties to even.
The numbers the handler computes from the contract's 256-bit fields stay far
below the overflow threshold `2^1024`, so overflow is not part of it. -/
def roundDouble (q : ℚ) : ℚ :=
  if q = 0 then 0
  else if 0 < q then
    ((roundCore q.num.natAbs q.den).1 : ℚ) * 2 ^ (roundCore q.num.natAbs q.den).2
  else
    -(((roundCore q.num.natAbs q.den).1 : ℚ) * 2 ^ (roundCore q.num.natAbs q.den).2)

/-- A JavaScript number: a finite binary64 value, an infinity, or `NaN`. -/
inductive JSNumber where
  | finite (value : ℚ)
  | infinite
  | notANumber
deriving DecidableEq, Repr

/-- An unsigned 256-bit integer of the contract (`uint256`). -/
abbrev UInt256 := Fin (2 ^ 256)

/-- The 256-bit integer with value `n` modulo `2^256`. -/
def uint256 (n : Nat) : UInt256 := ⟨n % 2 ^ 256, Nat.mod_lt _ (Nat.two_pow_pos 256)⟩

/-- The value `Number(x)` of an event field: web3 delivers a `uint256` as its
decimal text, and an arithmetic operator converts the text to the nearest
binary64 number (a correctly rounded conversion, as V8 performs it). -/
def toNumber (x : UInt256) : ℚ := roundDouble (x.val : ℚ)

/-- The division `a / b` of two finite numbers: a zero divisor gives `NaN` for
a zero dividend and an infinity otherwise. -/
def jsDiv (a b : ℚ) : JSNumber :=
  if b = 0 then (if a = 0 then .notANumber else .infinite)
  else .finite (roundDouble (a / b))

/-- The `returnValues` of an `AgreementCreated` event. -/
structure AgreementCreated where
  agreementId : UInt256
  consumer : String
  provider : String
  capacity : UInt256
  totalPrice : UInt256
  startTime : UInt256
  endTime : UInt256
deriving DecidableEq, Repr

/-- The value `durationInDays` (index.js 165):
`(endTime - startTime) / (24 * 60 * 60)`. -/
def durationInDays (ev : AgreementCreated) : ℚ :=
  roundDouble (roundDouble (toNumber ev.endTime - toNumber ev.startTime) / 86400)

/-- The value `pricePerGBPerDay` (index.js 166):
`totalPrice / (capacity * durationInDays)`. -/
def pricePerGBPerDay (ev : AgreementCreated) : JSNumber :=
  jsDiv (toNumber ev.totalPrice) (roundDouble (toNumber ev.capacity * durationInDays ev))

/-- The document the `AgreementCreated` handler builds (index.js 167-177): the
fields of the event, the derived price and `isActive: true`. The agreement
query further down reads the integer and text fields only (`Agreement`). -/
structure AgreementDocument where
  agreementId : Nat
  consumer : String
  provider : String
  capacity : Nat
  pricePerGBPerDay : JSNumber
  totalPrice : Nat
  startTime : Nat
  endTime : Nat
  isActive : Bool
deriving DecidableEq, Repr

/-- The document of `new StorageAgreement({ ... })` (index.js 167-177). -/
def newAgreement (ev : AgreementCreated) : AgreementDocument :=
  { agreementId := ev.agreementId.val
    consumer := ev.consumer
    provider := ev.provider
    capacity := ev.capacity.val
    pricePerGBPerDay := pricePerGBPerDay ev
    totalPrice := ev.totalPrice.val
    startTime := ev.startTime.val
    endTime := ev.endTime.val
    isActive := true }

/-- The `AgreementCreated` handler (index.js 153-186). `saveAccepts doc store`
tells whether `agreement.save()` succeeds: that is decided by the validation
and the indexes of the schema in `models/StorageAgreement.js`, which is not
among the sources, so the handler is modelled for every such decision. A
rejected save is caught and logged and leaves the collection as it was. -/
def onAgreementCreated (saveAccepts : AgreementDocument → List AgreementDocument → Bool)
    (ev : AgreementCreated) (store : List AgreementDocument) : List AgreementDocument :=
  let agreement := newAgreement ev
  if saveAccepts agreement store then store ++ [agreement] else store

/-! ## Marketplace queries: agreement by id (index.js, lines 289-308) -/

/-- A document of the `StorageAgreement` collection: the integer and text
fields of the `AgreementCreated` event and the `isActive` flag. The derived
`pricePerGBPerDay`, a floating-point number, is not represented. -/
structure Agreement where
  agreementId : Nat
  consumer : String
  provider : String
  capacity : Nat
  totalPrice : Nat
  startTime : Nat
  endTime : Nat
  isActive : Bool
deriving DecidableEq, Repr

/-- The characters `StrWhiteSpaceChar` of ECMAScript: white space and line
terminators. -/
def isStrWhiteSpace (c : Char) : Bool :=
  let n := c.toNat
  n = 0x9 || n = 0xA || n = 0xB || n = 0xC || n = 0xD || n = 0x20 || n = 0xA0 || n = 0x1680
    || (0x2000 ≤ n && n ≤ 0x200A) || n = 0x2028 || n = 0x2029 || n = 0x202F || n = 0x205F
    || n = 0x3000 || n = 0xFEFF

/-- A text without its leading and trailing white space. -/
def trimWhiteSpace (cs : List Char) : List Char :=
  ((cs.dropWhile isStrWhiteSpace).reverse.dropWhile isStrWhiteSpace).reverse

/-- A decimal digit `0-9`. -/
def isDecDigit (c : Char) : Bool :=
  48 ≤ c.toNat && c.toNat ≤ 57

/-- The production `DecimalDigits`: one or more decimal digits. -/
def isDecimalDigits (cs : List Char) : Bool :=
  !cs.isEmpty && cs.all isDecDigit

/-- The production `ExponentPart` without its `e`: an optional sign and
decimal digits. -/
def isExponent : List Char → Bool
  | '+' :: rest => isDecimalDigits rest
  | '-' :: rest => isDecimalDigits rest
  | cs => isDecimalDigits cs

/-- The part of a decimal literal before the exponent: digits, digits with a
fraction, or a fraction alone. -/
def isMantissa (cs : List Char) : Bool :=
  let intPart := cs.takeWhile isDecDigit
  match cs.dropWhile isDecDigit with
  | [] => !intPart.isEmpty
  | '.' :: frac => frac.all isDecDigit && (!intPart.isEmpty || !frac.isEmpty)
  | _ => false

/-- The production `StrUnsignedDecimalLiteral`. -/
def isUnsignedDecimal (cs : List Char) : Bool :=
  cs == "Infinity".toList ||
    (isMantissa (cs.takeWhile (fun c => c != 'e' && c != 'E')) &&
      match cs.dropWhile (fun c => c != 'e' && c != 'E') with
      | [] => true
      | _ :: ex => isExponent ex)

/-- The production `StrDecimalLiteral`: an optional sign and an unsigned
decimal literal. -/
def isStrDecimal : List Char → Bool
  | '+' :: rest => isUnsignedDecimal rest
  | '-' :: rest => isUnsignedDecimal rest
  | cs => isUnsignedDecimal cs

/-- A hexadecimal digit. -/
def isHexDigitChar (c : Char) : Bool :=
  isDecDigit c || (97 ≤ c.toNat && c.toNat ≤ 102) || (65 ≤ c.toNat && c.toNat ≤ 70)

/-- The production `NonDecimalIntegerLiteral`: `0x`, `0o` or `0b` and digits
of that base. -/
def isNonDecimalInteger : List Char → Bool
  | '0' :: x :: ds =>
    if x = 'x' ∨ x = 'X' then !ds.isEmpty && ds.all isHexDigitChar
    else if x = 'o' ∨ x = 'O' then !ds.isEmpty && ds.all (fun c => 48 ≤ c.toNat && c.toNat ≤ 55)
    else if x = 'b' ∨ x = 'B' then !ds.isEmpty && ds.all (fun c => c = '0' || c = '1')
    else false
  | _ => false

/-- The texts for which `Number(text)` is a number: white space alone, or a
`StrNumericLiteral` between optional white space. -/
def isStringNumericLiteral (cs : List Char) : Bool :=
  let t := trimWhiteSpace cs
  t.isEmpty || isStrDecimal t || isNonDecimalInteger t

/-- The global `isNaN` of JavaScript applied to a string: true when
`Number(id)` is `NaN`, that is when the text is no numeric literal. -/
def isNaN (id : String) : Bool :=
  !isStringNumericLiteral id.toList

/-- The response of the handler: the agreement as JSON, or a status with an
error message. -/
inductive AgreementResponse where
  | json (agreement : Agreement)
  | error (status : Nat) (message : String)
deriving DecidableEq, Repr

/-- What the handler does: its response, the filters it passed to
`StorageAgreement.findOne`, and the collection afterwards. -/
structure AgreementQuery where
  response : AgreementResponse
  queried : List String
  store : List Agreement
deriving DecidableEq, Repr

/-- The `GET /agreements/:id` handler (index.js 289-308). `idMatches id n` is
the test of the filter `{ agreementId: id }` against a stored `agreementId`
after the cast of the schema in `models/StorageAgreement.js`, which is not
among the sources; the handler is modelled for every such test. -/
def getAgreementById (idMatches : String → Nat → Bool) (store : List Agreement) (id : String) :
    AgreementQuery :=
  if isNaN id then
    ⟨.error 400 "Invalid agreement ID", [], store⟩
  else
    match store.find? (fun a => idMatches id a.agreementId) with
    | some agreement => ⟨.json agreement, [id], store⟩
    | none => ⟨.error 404 "Agreement not found", [id], store⟩

/-- The value of a text of decimal digits. -/
def decimalValue (cs : List Char) : Nat :=
  cs.foldl (fun acc c => 10 * acc + (c.toNat - 48)) 0

/-! ## Properties -/

/-! ### Offerings -/

theorem findOneAndUpdate_length (p : Offering → Bool) (f : Offering → Offering)
    (s : OfferingStore) : (findOneAndUpdate p f s).length = s.length := by
  induction s with
  | nil => rfl
  | cons o rest ih =>
    unfold findOneAndUpdate
    split <;> simp [ih]

theorem findOneAndUpdate_no_match (p : Offering → Bool) (f : Offering → Offering)
    (s : OfferingStore) (h : ∀ o ∈ s, p o = false) : findOneAndUpdate p f s = s := by
  induction s with
  | nil => rfl
  | cons o rest ih =>
    unfold findOneAndUpdate
    have ho : p o = false := h o (List.mem_cons_self _ _)
    simp only [ho, Bool.false_eq_true, if_false]
    rw [ih (fun x hx => h x (List.mem_cons_of_mem _ hx))]

/-- The ids of the stored documents do not change under an update that keeps
the `offeringId`. -/
theorem findOneAndUpdate_ids (p : Offering → Bool) (f : Offering → Offering)
    (hf : ∀ o, (f o).offeringId = o.offeringId) (s : OfferingStore) :
    (findOneAndUpdate p f s).map (·.offeringId) = s.map (·.offeringId) := by
  induction s with
  | nil => rfl
  | cons o rest ih =>
    unfold findOneAndUpdate
    split
    · simp [hf]
    · simp [ih]

theorem recordsFor_update_one (k c pr : Nat) (s : OfferingStore) (o : Offering)
    (h : recordsFor k s = [o]) :
    recordsFor k (onOfferingUpdated k c pr s)
      = [{ o with capacity := c, pricePerGBPerDay := pr }] := by
  induction s with
  | nil => simp [recordsFor] at h
  | cons x rest ih =>
    unfold onOfferingUpdated findOneAndUpdate
    by_cases hx : x.offeringId = k
    · have hx' : (x.offeringId == k) = true := by simp [hx]
      simp only [recordsFor, List.filter_cons, hx', if_true] at h ⊢
      have h1 : x = o := (List.cons.inj h).1
      have h2 : List.filter (fun o => o.offeringId == k) rest = [] := (List.cons.inj h).2
      simp [hx, h1, h2]
    · have hx' : (x.offeringId == k) = false := by simp [hx]
      simp only [recordsFor, List.filter_cons, hx', Bool.false_eq_true, if_false] at h ⊢
      exact ih h

theorem recordsFor_created_fresh (sch : OfferingSchema) (k : Nat) (p : String) (c pr : Nat)
    (s : OfferingStore) (h : recordsFor k s = []) :
    recordsFor k (onOfferingCreated sch k p c pr s) = [⟨k, p, c, pr, true⟩] := by
  have hany : s.any (fun o => o.offeringId == k) = false := by
    rw [List.any_eq_false]
    intro o ho hk
    have : o ∈ recordsFor k s := List.mem_filter.mpr ⟨ho, hk⟩
    rw [h] at this
    exact absurd this (List.not_mem_nil _)
  simp only [onOfferingCreated, save, hany, Bool.and_false, Bool.false_eq_true, if_false]
  simp only [recordsFor, List.filter_append] at h ⊢
  simp [h]

theorem updates_keep_single_record (sch : OfferingSchema) (k : Nat) (ups : List OfferingEvent)
    (hups : ∀ u ∈ ups, ∃ p c pr, u = OfferingEvent.OfferingUpdated k p c pr) :
    ∀ (s : OfferingStore) (o : Offering), recordsFor k s = [o] →
      ∃ o', recordsFor k (processOfferingEvents sch s ups) = [o'] := by
  induction ups with
  | nil => intro s o h; exact ⟨o, h⟩
  | cons u rest ih =>
    intro s o h
    obtain ⟨p, c, pr, rfl⟩ := hups _ (List.mem_cons_self _ _)
    have := recordsFor_update_one k c pr s o h
    exact ih (fun x hx => hups x (List.mem_cons_of_mem _ hx)) _ _ this

theorem ids_nodup_reachable (evs : List OfferingEvent) :
    ∀ s : OfferingStore, (s.map (·.offeringId)).Nodup →
      ((processOfferingEvents specSchema s evs).map (·.offeringId)).Nodup := by
  induction evs with
  | nil => intro s h; exact h
  | cons e rest ih =>
    intro s h
    apply ih
    cases e with
    | OfferingCreated k p c pr =>
      simp only [processOfferingEvent, onOfferingCreated, save, specSchema, Bool.true_and]
      by_cases hany : s.any (fun o => o.offeringId == k) = true
      · simpa [hany] using h
      · simp only [hany, Bool.false_eq_true, if_false, List.map_append, List.map_cons,
          List.map_nil]
        rw [List.nodup_append]
        refine ⟨h, List.nodup_singleton _, ?_⟩
        intro a ha hb
        rw [List.mem_singleton] at hb
        subst hb
        apply hany
        rw [List.any_eq_true]
        obtain ⟨o, ho, hid⟩ := List.mem_map.mp ha
        exact ⟨o, ho, by simp [hid]⟩
    | OfferingUpdated k p c pr =>
      have e := findOneAndUpdate_ids (fun o => o.offeringId == k)
        (fun o => { o with capacity := c, pricePerGBPerDay := pr }) (fun _ => rfl) s
      simp only [processOfferingEvent, onOfferingUpdated]
      rw [e]
      exact h
    | OfferingRemoved k p =>
      have e := findOneAndUpdate_ids (fun o => o.offeringId == k)
        (fun o => { o with isAvailable := false }) (fun _ => rfl) s
      simp only [processOfferingEvent, onOfferingRemoved]
      rw [e]
      exact h

theorem removed_marks_every_match (k : Nat) (s : OfferingStore)
    (h : (s.map (·.offeringId)).Nodup) :
    ∀ o ∈ onOfferingRemoved k s, o.offeringId = k → o.isAvailable = false := by
  induction s with
  | nil => intro o ho; simp [onOfferingRemoved, findOneAndUpdate] at ho
  | cons x rest ih =>
    intro o ho hk
    rw [List.map_cons, List.nodup_cons] at h
    unfold onOfferingRemoved findOneAndUpdate at ho
    by_cases hx : x.offeringId = k
    · simp only [hx, beq_self_eq_true, if_true, List.mem_cons] at ho
      rcases ho with rfl | ho
      · rfl
      · exfalso
        apply h.1
        rw [hx, ← hk]
        exact List.mem_map_of_mem _ ho
    · have hx' : (x.offeringId == k) = false := by simp [hx]
      simp only [hx', Bool.false_eq_true, if_false, List.mem_cons] at ho
      rcases ho with rfl | ho
      · exact absurd hk hx
      · exact ih h.2 o ho hk

/-- C1 (counterexample). On the empty collection, which holds no record with
offeringId 7, the `OfferingUpdated` handler for offeringId 7 with capacity 50
and price 3 leaves the collection empty: no record with offeringId 7 exists
afterwards. -/
theorem C1_update_unseen_creates_nothing :
    (∀ o ∈ ([] : OfferingStore), o.offeringId ≠ 7) ∧
    ¬ ∃ o ∈ onOfferingUpdated 7 50 3 [],
        o.offeringId = 7 ∧ o.capacity = 50 ∧ o.pricePerGBPerDay = 3 := by
  decide

/-- C1 (amended). For every collection that holds no record with offeringId
`k`, the `OfferingUpdated` handler for `k` returns without a write: the
collection afterwards is the collection before, so no record for `k` is
created. -/
theorem C1_update_unseen_is_noop (k capacity price : Nat) (s : OfferingStore)
    (h : ∀ o ∈ s, o.offeringId ≠ k) :
    onOfferingUpdated k capacity price s = s ∧ recordsFor k (onOfferingUpdated k capacity price s) = [] := by
  have hs : onOfferingUpdated k capacity price s = s :=
    findOneAndUpdate_no_match _ _ s (fun o ho => by simpa using h o ho)
  refine ⟨hs, ?_⟩
  rw [hs, recordsFor, List.filter_eq_nil_iff]
  intro o ho
  simpa using h o ho

/-- Witness of C1 (amended): a collection holding offering 1 only, updated for
offeringId 7. -/
theorem C1_update_unseen_is_noop_witness :
    (∀ o ∈ ([⟨1, "p", 10, 2, true⟩] : OfferingStore), o.offeringId ≠ 7) ∧
    onOfferingUpdated 7 50 3 [⟨1, "p", 10, 2, true⟩] = [⟨1, "p", 10, 2, true⟩] :=
  ⟨by decide, (C1_update_unseen_is_noop 7 50 3 [⟨1, "p", 10, 2, true⟩] (by decide)).1⟩


/-- C2 (counterexample). Under either schema, a lone `OfferingUpdated` for
offeringId 7 on the empty collection leaves no record for 7 (not exactly one);
and the sequence created(100, 5), updated(50, 3), created(100, 5) delivered
again ends, with the unique index, in one record carrying 50 and 3 where the
last event carries 100 and 5, and, without the unique index, in two records. -/
theorem C2_same_id_sequences_not_last_writer :
    (recordsFor 7 (processOfferingEvents ⟨true⟩ [] [.OfferingUpdated 7 "p" 50 3]) = [] ∧
     recordsFor 7 (processOfferingEvents ⟨false⟩ [] [.OfferingUpdated 7 "p" 50 3]) = []) ∧
    (recordsFor 7 (processOfferingEvents ⟨true⟩ []
        [.OfferingCreated 7 "p" 100 5, .OfferingUpdated 7 "p" 50 3, .OfferingCreated 7 "p" 100 5])
        = [⟨7, "p", 50, 3, true⟩] ∧
     (recordsFor 7 (processOfferingEvents ⟨false⟩ []
        [.OfferingCreated 7 "p" 100 5, .OfferingUpdated 7 "p" 50 3,
         .OfferingCreated 7 "p" 100 5])).length = 2) := by
  decide

/-- C2 (amended). For either schema, every collection that holds no record with
offeringId `k`, and every sequence made of one `OfferingCreated` for `k`
followed by any number of `OfferingUpdated` events for `k` (repeated deliveries
of an update included): after the handlers have processed the sequence the
collection holds exactly one record for `k`, and its capacity and
pricePerGBPerDay are those of the last event of the sequence. -/
theorem C2_created_then_updates_reflect_last (sch : OfferingSchema) (s : OfferingStore)
    (k : Nat) (p : String) (c pr : Nat) (ups : List OfferingEvent)
    (hfresh : recordsFor k s = [])
    (hups : ∀ u ∈ ups, ∃ p' c' pr', u = OfferingEvent.OfferingUpdated k p' c' pr') :
    ∃ o, recordsFor k (processOfferingEvents sch s (.OfferingCreated k p c pr :: ups)) = [o] ∧
      ((OfferingEvent.OfferingCreated k p c pr :: ups).getLast?).bind OfferingEvent.terms
        = some (o.capacity, o.pricePerGBPerDay) := by
  have hc := recordsFor_created_fresh sch k p c pr s hfresh
  rcases List.eq_nil_or_concat ups with rfl | ⟨L, b, rfl⟩
  · exact ⟨_, hc, rfl⟩
  · rw [List.concat_eq_append] at hups ⊢
    obtain ⟨p', c', pr', rfl⟩ := hups b (by simp)
    obtain ⟨o', ho'⟩ := updates_keep_single_record sch k L
      (fun u hu => hups u (by simp [hu])) _ _ hc
    refine ⟨{ o' with capacity := c', pricePerGBPerDay := pr' }, ?_, ?_⟩
    · have : processOfferingEvents sch s
          (.OfferingCreated k p c pr :: (L ++ [.OfferingUpdated k p' c' pr']))
          = onOfferingUpdated k c' pr'
              (processOfferingEvents sch (onOfferingCreated sch k p c pr s) L) := by
        simp [processOfferingEvents, processOfferingEvent, List.foldl_append]
      rw [this]
      exact recordsFor_update_one k c' pr' _ o' ho'
    · rw [← List.cons_append, List.getLast?_append]
      simp [OfferingEvent.terms]

/-- Witness of C2 (amended): offering 7 created with (100, 5), then updated to
(50, 3) and to (60, 4), on the empty collection with the unique index. -/
theorem C2_created_then_updates_reflect_last_witness :
    recordsFor 7 ([] : OfferingStore) = [] ∧
    ∃ o, recordsFor 7 (processOfferingEvents ⟨true⟩ []
          [.OfferingCreated 7 "p" 100 5, .OfferingUpdated 7 "p" 50 3,
           .OfferingUpdated 7 "p" 60 4]) = [o] ∧
      ((OfferingEvent.OfferingCreated 7 "p" 100 5 ::
          [.OfferingUpdated 7 "p" 50 3, .OfferingUpdated 7 "p" 60 4]).getLast?).bind
          OfferingEvent.terms = some (o.capacity, o.pricePerGBPerDay) :=
  ⟨rfl, C2_created_then_updates_reflect_last ⟨true⟩ [] 7 "p" 100 5
    [.OfferingUpdated 7 "p" 50 3, .OfferingUpdated 7 "p" 60 4] rfl
    (by
      intro u hu
      simp only [List.mem_cons, List.mem_singleton, List.not_mem_nil, or_false] at hu
      rcases hu with rfl | rfl
      · exact ⟨_, _, _, rfl⟩
      · exact ⟨_, _, _, rfl⟩)⟩

/-- C3. With `offeringId` unique in the schema, for every collection reached
from the empty one by processing offering events and every offeringId `k`: the
`OfferingRemoved` handler for `k` deletes no record (the number of stored
offerings and their ids are unchanged), and `GET /offerings` taken afterwards
returns no record whose offeringId is `k`. -/
theorem C3_removed_keeps_records_and_hides_offering (evs : List OfferingEvent) (k : Nat) :
    (onOfferingRemoved k (processOfferingEvents specSchema [] evs)).length
        = (processOfferingEvents specSchema [] evs).length ∧
    (onOfferingRemoved k (processOfferingEvents specSchema [] evs)).map (·.offeringId)
        = (processOfferingEvents specSchema [] evs).map (·.offeringId) ∧
    ∀ o ∈ getOfferings (onOfferingRemoved k (processOfferingEvents specSchema [] evs)),
        o.offeringId ≠ k := by
  refine ⟨findOneAndUpdate_length _ _ _,
    findOneAndUpdate_ids (fun o => o.offeringId == k) (fun o => { o with isAvailable := false })
      (fun _ => rfl) _, ?_⟩
  intro o ho hk
  have hn := ids_nodup_reachable evs [] List.nodup_nil
  obtain ⟨hmem, hav⟩ := List.mem_filter.mp ho
  have := removed_marks_every_match k _ hn o hmem hk
  rw [this] at hav
  exact Bool.false_ne_true hav

/-- Without the unique index the hiding part of C3 depends on the history: an
`OfferingCreated` delivered twice leaves two records, of which the removal
marks the first only. -/
theorem removed_without_unique_index :
    getOfferings (onOfferingRemoved 7 (processOfferingEvents ⟨false⟩ []
      [.OfferingCreated 7 "p" 100 5, .OfferingCreated 7 "p" 100 5]))
      = [⟨7, "p", 100, 5, true⟩] := by
  decide

/-! ### Provider registry -/

example : arrayIndex? "1" = some 1 := by decide
example : arrayIndex? "01" = none := by decide
example : arrayIndex? "b" = none := by decide
example : arrayIndex? "4294967295" = none := by decide
example : arrayIndex? "4294967294" = some 4294967294 := by decide
example : selectProvider (runRegistry [.register ⟨"b", by decide⟩ "0xA" 5,
    .register ⟨"1", by decide⟩ "0xB" 6]) = some ⟨⟨"1", by decide⟩, "0xB", 6⟩ := by decide
example : regTime [.register ⟨"b", by decide⟩ "0xA" 5,
    .register ⟨"1", by decide⟩ "0xB" 6] ⟨"b", by decide⟩ = some 0 := by decide

theorem getProp_setProp_self (id : ConnId) (e : ProviderEntry) (r : Registry) :
    getProp id (setProp id e r) = some e := by
  induction r with
  | nil => simp [setProp, getProp]
  | cons kv rest ih =>
    unfold setProp
    by_cases h : kv.1 = id
    · simp [h, getProp]
    · simp [h, getProp, ih]

theorem getProp_setProp_ne (id c : ConnId) (e : ProviderEntry) (r : Registry) (hc : c ≠ id) :
    getProp c (setProp id e r) = getProp c r := by
  induction r with
  | nil => simp [setProp, getProp, Ne.symm hc]
  | cons kv rest ih =>
    unfold setProp
    by_cases h : kv.1 = id
    · have h' : kv.1 ≠ c := fun hk => hc (hk ▸ h)
      rw [if_pos h]
      show (if id = c then _ else _) = (if kv.1 = c then _ else _)
      rw [if_neg (Ne.symm hc), if_neg h']
    · rw [if_neg h]
      show (if kv.1 = c then _ else _) = (if kv.1 = c then _ else _)
      rw [ih]

theorem getProp_deleteProp_self (id : ConnId) (r : Registry) :
    getProp id (deleteProp id r) = none := by
  induction r with
  | nil => rfl
  | cons kv rest ih =>
    unfold deleteProp
    by_cases h : kv.1 = id
    · rw [if_pos h]; exact ih
    · rw [if_neg h]
      show (if kv.1 = id then _ else _) = _
      rw [if_neg h]; exact ih

theorem getProp_deleteProp_ne (id c : ConnId) (r : Registry) (hc : c ≠ id) :
    getProp c (deleteProp id r) = getProp c r := by
  induction r with
  | nil => rfl
  | cons kv rest ih =>
    unfold deleteProp
    by_cases h : kv.1 = id
    · have h' : kv.1 ≠ c := fun hk => hc (hk ▸ h)
      rw [if_pos h, ih]
      show _ = (if kv.1 = c then _ else _)
      rw [if_neg h']
    · rw [if_neg h]
      show (if kv.1 = c then _ else _) = (if kv.1 = c then _ else _)
      rw [ih]

/-- C5. For every registry and every two distinct connection ids `c1`, `c2`:
after both have registered with the same providerAddress (in either order) the
registry holds an entry under each id, each with its own availableStorage; the
disconnect of `c1` then removes the entry of `c1` only: the entry of `c2` is
the one it registered, and the lookup of every id other than `c1` gives what it
gave before the disconnect. -/
theorem C5_same_address_connections_independent (providers : Registry) (c1 c2 : ConnId)
    (addr : String) (s1 s2 : Nat) (h : c1 ≠ c2) :
    (getProp c1 (onProviderRegistration c2 addr s2 (onProviderRegistration c1 addr s1 providers))
        = some ⟨c1, addr, s1⟩ ∧
     getProp c2 (onProviderRegistration c2 addr s2 (onProviderRegistration c1 addr s1 providers))
        = some ⟨c2, addr, s2⟩ ∧
     getProp c1 (onDisconnect c1
        (onProviderRegistration c2 addr s2 (onProviderRegistration c1 addr s1 providers))) = none ∧
     getProp c2 (onDisconnect c1
        (onProviderRegistration c2 addr s2 (onProviderRegistration c1 addr s1 providers)))
        = some ⟨c2, addr, s2⟩ ∧
     ∀ c, c ≠ c1 →
       getProp c (onDisconnect c1
         (onProviderRegistration c2 addr s2 (onProviderRegistration c1 addr s1 providers)))
       = getProp c (onProviderRegistration c2 addr s2
           (onProviderRegistration c1 addr s1 providers))) ∧
    (getProp c1 (onProviderRegistration c1 addr s1 (onProviderRegistration c2 addr s2 providers))
        = some ⟨c1, addr, s1⟩ ∧
     getProp c2 (onProviderRegistration c1 addr s1 (onProviderRegistration c2 addr s2 providers))
        = some ⟨c2, addr, s2⟩ ∧
     getProp c1 (onDisconnect c1
        (onProviderRegistration c1 addr s1 (onProviderRegistration c2 addr s2 providers))) = none ∧
     getProp c2 (onDisconnect c1
        (onProviderRegistration c1 addr s1 (onProviderRegistration c2 addr s2 providers)))
        = some ⟨c2, addr, s2⟩ ∧
     ∀ c, c ≠ c1 →
       getProp c (onDisconnect c1
         (onProviderRegistration c1 addr s1 (onProviderRegistration c2 addr s2 providers)))
       = getProp c (onProviderRegistration c1 addr s1
           (onProviderRegistration c2 addr s2 providers))) := by
  have h' : c2 ≠ c1 := Ne.symm h
  simp only [onProviderRegistration, onDisconnect]
  refine ⟨⟨?_, ?_, ?_, ?_, ?_⟩, ⟨?_, ?_, ?_, ?_, ?_⟩⟩
  · rw [getProp_setProp_ne _ _ _ _ h, getProp_setProp_self]
  · rw [getProp_setProp_self]
  · rw [getProp_deleteProp_self]
  · rw [getProp_deleteProp_ne _ _ _ h', getProp_setProp_self]
  · intro c hc
    rw [getProp_deleteProp_ne _ _ _ hc]
  · rw [getProp_setProp_self]
  · rw [getProp_setProp_ne _ _ _ _ h', getProp_setProp_self]
  · rw [getProp_deleteProp_self]
  · rw [getProp_deleteProp_ne _ _ _ h', getProp_setProp_ne _ _ _ _ h', getProp_setProp_self]
  · intro c hc
    rw [getProp_deleteProp_ne _ _ _ hc]

/-- Witness of C5: two connections of the provider address `0xA` next to a
registered third one. -/
theorem C5_same_address_connections_independent_witness :
    (⟨"c1", by decide⟩ : ConnId) ≠ ⟨"c2", by decide⟩ ∧
    getProp ⟨"c2", by decide⟩ (onDisconnect ⟨"c1", by decide⟩
      (onProviderRegistration ⟨"c2", by decide⟩ "0xA" 20
        (onProviderRegistration ⟨"c1", by decide⟩ "0xA" 10
          [(⟨"c0", by decide⟩, ⟨⟨"c0", by decide⟩, "0xB", 7⟩)])))
      = some ⟨⟨"c2", by decide⟩, "0xA", 20⟩ :=
  ⟨by decide,
   (C5_same_address_connections_independent
      [(⟨"c0", by decide⟩, ⟨⟨"c0", by decide⟩, "0xB", 7⟩)]
      ⟨"c1", by decide⟩ ⟨"c2", by decide⟩ "0xA" 10 20 (by decide)).1.2.2.2.1⟩

theorem setProp_keys_mem (id : ConnId) (e : ProviderEntry) (r : Registry)
    (h : id ∈ r.map (·.1)) : (setProp id e r).map (·.1) = r.map (·.1) := by
  induction r with
  | nil => simp at h
  | cons kv rest ih =>
    unfold setProp
    by_cases hk : kv.1 = id
    · rw [if_pos hk]; simp [hk]
    · rw [if_neg hk]
      have : id ∈ rest.map (·.1) := by
        rw [List.map_cons] at h
        rcases List.mem_cons.mp h with h1 | h1
        · exact absurd h1.symm hk
        · exact h1
      simp [ih this]

theorem setProp_keys_not_mem (id : ConnId) (e : ProviderEntry) (r : Registry)
    (h : id ∉ r.map (·.1)) : (setProp id e r).map (·.1) = r.map (·.1) ++ [id] := by
  induction r with
  | nil => rfl
  | cons kv rest ih =>
    unfold setProp
    have hk : kv.1 ≠ id := fun hk => h (by simp [← hk])
    have hr : id ∉ rest.map (·.1) := fun hr => h (by
      rw [List.map_cons]; exact List.mem_cons_of_mem _ hr)
    rw [if_neg hk]
    simp [ih hr]

theorem mem_setProp (id : ConnId) (e : ProviderEntry) (r : Registry) :
    ∀ kv ∈ setProp id e r, kv = (id, e) ∨ kv ∈ r := by
  induction r with
  | nil => intro kv h; simp [setProp] at h; exact Or.inl h
  | cons x rest ih =>
    intro kv h
    unfold setProp at h
    by_cases hk : x.1 = id
    · rw [if_pos hk] at h
      rcases List.mem_cons.mp h with h1 | h1
      · exact Or.inl h1
      · exact Or.inr (List.mem_cons_of_mem _ h1)
    · rw [if_neg hk] at h
      rcases List.mem_cons.mp h with h1 | h1
      · exact Or.inr (h1 ▸ List.mem_cons_self _ _)
      · rcases ih kv h1 with h2 | h2
        · exact Or.inl h2
        · exact Or.inr (List.mem_cons_of_mem _ h2)

theorem deleteProp_eq_filter (id : ConnId) (r : Registry) :
    deleteProp id r = r.filter (fun kv => decide (kv.1 ≠ id)) := by
  induction r with
  | nil => rfl
  | cons x rest ih =>
    unfold deleteProp
    by_cases hk : x.1 = id
    · rw [if_pos hk, ih, List.filter_cons_of_neg (by simp [hk])]
    · rw [if_neg hk, ih, List.filter_cons_of_pos (by simp [hk])]

theorem deleteProp_keys (id : ConnId) (r : Registry) :
    (deleteProp id r).map (·.1) = (r.map (·.1)).filter (fun k => decide (k ≠ id)) := by
  induction r with
  | nil => rfl
  | cons x rest ih =>
    unfold deleteProp
    by_cases hk : x.1 = id
    · rw [if_pos hk, ih, List.map_cons, List.filter_cons_of_neg (by simp [hk])]
    · rw [if_neg hk, List.map_cons, ih, List.map_cons, List.filter_cons_of_pos (by simp [hk])]

theorem RegInv_register (r : Registry) (m : ConnId → Option Nat) (t : Nat) (id : ConnId)
    (a : String) (st : Nat) (h : RegInv r m t) :
    RegInv (onProviderRegistration id a st r)
      (fun c => if c = id then (match m id with | some t0 => some t0 | none => some t)
                else m c) (t + 1) := by
  obtain ⟨h1, h2, h3, h4⟩ := h
  have hent : ∀ kv ∈ onProviderRegistration id a st r, kv.2.socket = kv.1 := by
    intro kv hkv
    rcases mem_setProp _ _ _ kv hkv with rfl | hm
    · rfl
    · exact h4 kv hm
  cases hm : m id with
  | some t0 =>
    have hin : id ∈ r.map (·.1) := by
      by_contra hc
      have := (h1 id).mpr hc
      rw [hm] at this
      exact Option.noConfusion this
    have hfun : (fun c => if c = id then (some t0 : Option Nat) else m c) = m := by
      funext c
      by_cases hc : c = id
      · rw [if_pos hc, hc, hm]
      · rw [if_neg hc]
    simp only [hfun]
    refine ⟨?_, ?_, ?_, hent⟩
    · intro c
      rw [onProviderRegistration, setProp_keys_mem _ _ _ hin]
      exact h1 c
    · rw [onProviderRegistration, setProp_keys_mem _ _ _ hin]
      exact h2
    · intro c ta hc
      exact Nat.lt_succ_of_lt (h3 c ta hc)
  | none =>
    have hnin : id ∉ r.map (·.1) := (h1 id).mp hm
    simp only []
    refine ⟨?_, ?_, ?_, hent⟩
    · intro c
      rw [onProviderRegistration, setProp_keys_not_mem _ _ _ hnin]
      by_cases hc : c = id
      · subst hc
        simp
      · dsimp only
        rw [if_neg hc, h1 c]
        simp [hc]
    · rw [onProviderRegistration, setProp_keys_not_mem _ _ _ hnin, List.pairwise_append]
      refine ⟨?_, List.pairwise_singleton _ _, ?_⟩
      · refine List.Pairwise.imp_of_mem ?_ h2
        intro x y hx hy hxy
        have hxn : x ≠ id := fun e => hnin (e ▸ hx)
        have hyn : y ≠ id := fun e => hnin (e ▸ hy)
        dsimp only
        rw [if_neg hxn, if_neg hyn]
        exact hxy
      · intro x hx y hy
        rw [List.mem_singleton] at hy
        subst hy
        have hxn : x ≠ y := fun e => hnin (e ▸ hx)
        cases hmx : m x with
        | none => exact absurd hx ((h1 x).mp hmx)
        | some ta =>
          refine ⟨ta, t, ?_, ?_, h3 x ta hmx⟩
          · dsimp only; rw [if_neg hxn]; exact hmx
          · dsimp only; rw [if_pos rfl]
    · intro c ta hc
      dsimp only at hc
      by_cases hcid : c = id
      · rw [if_pos hcid] at hc
        rw [← Option.some.inj hc]
        exact Nat.lt_succ_self t
      · rw [if_neg hcid] at hc
        exact Nat.lt_succ_of_lt (h3 c ta hc)

theorem RegInv_disconnect (r : Registry) (m : ConnId → Option Nat) (t : Nat) (id : ConnId)
    (h : RegInv r m t) :
    RegInv (onDisconnect id r) (fun c => if c = id then none else m c) (t + 1) := by
  obtain ⟨h1, h2, h3, h4⟩ := h
  refine ⟨?_, ?_, ?_, ?_⟩
  · intro c
    rw [onDisconnect, deleteProp_keys]
    by_cases hc : c = id
    · subst hc
      simp
    · dsimp only
      rw [if_neg hc, h1 c]
      simp [hc]
  · rw [onDisconnect, deleteProp_keys]
    refine List.Pairwise.imp_of_mem ?_ (List.Pairwise.filter _ h2)
    intro x y hx hy hxy
    have hxn : x ≠ id := by simpa using (List.mem_filter.mp hx).2
    have hyn : y ≠ id := by simpa using (List.mem_filter.mp hy).2
    dsimp only
    rw [if_neg hxn, if_neg hyn]
    exact hxy
  · intro c ta hc
    dsimp only at hc
    by_cases hcid : c = id
    · rw [if_pos hcid] at hc
      exact Option.noConfusion hc
    · rw [if_neg hcid] at hc
      exact Nat.lt_succ_of_lt (h3 c ta hc)
  · intro kv hkv
    rw [onDisconnect, deleteProp_eq_filter] at hkv
    exact h4 kv (List.mem_filter.mp hkv).1

theorem RegInv_run (ops : List RegistryOp) :
    ∀ (r : Registry) (m : ConnId → Option Nat) (t : Nat), RegInv r m t →
      RegInv (ops.foldl registryStep r) (regTimesFrom t m ops) (t + ops.length) := by
  induction ops with
  | nil => intro r m t h; exact h
  | cons op rest ih =>
    intro r m t h
    have e : t + (op :: rest).length = (t + 1) + rest.length := by
      simp only [List.length_cons]; omega
    rw [e]
    cases op with
    | register id a st => exact ih _ _ _ (RegInv_register r m t id a st h)
    | disconnect id => exact ih _ _ _ (RegInv_disconnect r m t id h)

theorem RegInv_runRegistry (ops : List RegistryOp) :
    RegInv (runRegistry ops) (regTime ops) ops.length := by
  have h0 : RegInv [] (fun _ => none) 0 :=
    ⟨fun c => by simp, List.Pairwise.nil, fun c ta h => Option.noConfusion h,
     fun kv h => absurd h (List.not_mem_nil _)⟩
  have := RegInv_run ops [] (fun _ => none) 0 h0
  rwa [Nat.zero_add] at this

theorem mem_insertByIndex (k x : ConnId) (l : List ConnId) :
    x ∈ insertByIndex k l ↔ x = k ∨ x ∈ l := by
  induction l with
  | nil => simp [insertByIndex]
  | cons y rest ih =>
    unfold insertByIndex
    split
    · simp
    · rw [List.mem_cons, ih, List.mem_cons]
      constructor
      · rintro (h | h | h)
        · exact Or.inr (Or.inl h)
        · exact Or.inl h
        · exact Or.inr (Or.inr h)
      · rintro (h | h | h)
        · exact Or.inr (Or.inl h)
        · exact Or.inl h
        · exact Or.inr (Or.inr h)

theorem mem_sortByIndex (x : ConnId) (l : List ConnId) : x ∈ sortByIndex l ↔ x ∈ l := by
  induction l with
  | nil => simp [sortByIndex]
  | cons y rest ih =>
    unfold sortByIndex
    rw [mem_insertByIndex, ih, List.mem_cons]

theorem mem_objectKeys (k : ConnId) (r : Registry) : k ∈ objectKeys r ↔ k ∈ r.map (·.1) := by
  unfold objectKeys
  simp only [List.mem_append, mem_sortByIndex, List.mem_filter]
  constructor
  · rintro (h | h)
    · exact h.1
    · exact h.1
  · intro h
    cases hk : (arrayIndex? k.val).isSome with
    | true => exact Or.inl ⟨h, rfl⟩
    | false => exact Or.inr ⟨h, rfl⟩

theorem objectKeys_no_index (r : Registry)
    (h : ∀ k ∈ r.map (·.1), arrayIndex? k.val = none) : objectKeys r = r.map (·.1) := by
  unfold objectKeys
  have h1 : (r.map (·.1)).filter (fun k => (arrayIndex? k.val).isSome) = [] := by
    rw [List.filter_eq_nil_iff]
    intro k hk
    simp [h k hk]
  have h2 : (r.map (·.1)).filter (fun k => !(arrayIndex? k.val).isSome) = r.map (·.1) := by
    rw [List.filter_eq_self]
    intro k hk
    simp [h k hk]
  simp only [h1, h2, sortByIndex, List.nil_append]

theorem getProp_of_mem_keys (k : ConnId) (r : Registry) (h : k ∈ r.map (·.1)) :
    ∃ e, getProp k r = some e := by
  induction r with
  | nil => simp at h
  | cons kv rest ih =>
    unfold getProp
    by_cases hk : kv.1 = k
    · exact ⟨kv.2, by rw [if_pos hk]⟩
    · rw [if_neg hk]
      rw [List.map_cons] at h
      rcases List.mem_cons.mp h with h1 | h1
      · exact absurd h1.symm hk
      · exact ih h1

/-- The function `selectProvider` returns null exactly on the empty object, for
every property name. -/
theorem selectProvider_none_iff (r : Registry) : selectProvider r = none ↔ r = [] := by
  constructor
  · intro h
    cases r with
    | nil => rfl
    | cons kv rest =>
      exfalso
      unfold selectProvider at h
      have hmem : kv.1 ∈ objectKeys (kv :: rest) := (mem_objectKeys _ _).mpr (by simp)
      cases hk : objectKeys (kv :: rest) with
      | nil => rw [hk] at hmem; exact absurd hmem (List.not_mem_nil _)
      | cons first more =>
        simp only [hk] at h
        have hf : first ∈ (kv :: rest).map (·.1) :=
          (mem_objectKeys _ _).mp (hk ▸ List.mem_cons_self _ _)
        obtain ⟨e, he⟩ := getProp_of_mem_keys first _ hf
        rw [he] at h
        exact Option.noConfusion h
  · rintro rfl
    rfl

theorem keys_of_run (ops : List RegistryOp) :
    ∀ (r : Registry), ∀ c ∈ (ops.foldl registryStep r).map (·.1),
      c ∈ r.map (·.1) ∨ ∃ a st, RegistryOp.register c a st ∈ ops := by
  induction ops with
  | nil => intro r c h; exact Or.inl h
  | cons op rest ih =>
    intro r c h
    rcases ih _ c h with h1 | ⟨a, st, h1⟩
    · cases op with
      | register id a st =>
        by_cases hc : c = id
        · exact Or.inr ⟨a, st, by rw [hc]; exact List.mem_cons_self _ _⟩
        · left
          obtain ⟨kv, hkv, rfl⟩ := List.mem_map.mp h1
          rcases mem_setProp _ _ _ kv hkv with h2 | h2
          · exact absurd (by rw [h2]) hc
          · exact List.mem_map_of_mem _ h2
      | disconnect id =>
        left
        simp only [registryStep, onDisconnect, deleteProp_keys] at h1
        exact (List.mem_filter.mp h1).1
    · exact Or.inr ⟨a, st, List.mem_cons_of_mem _ h1⟩

theorem digits_value_ge (cs : List Char) :
    ∀ acc : Nat, acc * 10 ^ cs.length ≤ cs.foldl (fun a c => 10 * a + (c.toNat - 48)) acc := by
  induction cs with
  | nil => intro acc; simp
  | cons c rest ih =>
    intro acc
    rw [List.foldl_cons, List.length_cons, Nat.pow_succ]
    refine Nat.le_trans ?_ (ih _)
    calc acc * (10 ^ rest.length * 10) = (10 * acc) * 10 ^ rest.length := by ring
      _ ≤ (10 * acc + (c.toNat - 48)) * 10 ^ rest.length :=
        Nat.mul_le_mul_right _ (Nat.le_add_right _ _)

/-- A name of 20 characters, the length of the ids socket.io issues, is never
an array index. -/
theorem arrayIndex_none_of_length_20 (name : String) (h : name.length = 20) :
    arrayIndex? name = none := by
  have hlen : name.toList.length = 20 := h
  unfold arrayIndex?
  simp only []
  split
  · rfl
  · split
    · rfl
    · split
      · rfl
      · rename_i hne hall hzero
        cases hcs : name.toList with
        | nil => rw [hcs] at hlen; exact absurd hlen (by decide)
        | cons c rest =>
          rw [hcs] at hlen hall hzero
          have hrest : rest.length = 19 := by
            simp only [List.length_cons] at hlen; omega
          have hdig : c.isDigit = true := by
            simp only [List.all_cons, Bool.not_and, Bool.not_eq_true, Bool.or_eq_true,
              Bool.not_eq_true', not_or, Bool.not_eq_false] at hall
            exact hall.1
          have hc0 : c ≠ '0' := by
            intro e
            apply hzero
            simp [e, hrest]
          simp only [Char.isDigit, Bool.and_eq_true, decide_eq_true_eq] at hdig
          have h48 : 48 ≤ c.toNat := UInt32.le_def.mp hdig.1
          have hne48 : c.toNat ≠ 48 := by
            intro e
            apply hc0
            rw [← Char.ofNat_toNat c, e]
          have hval := digits_value_ge rest (10 * 0 + (c.toNat - 48))
          rw [hrest] at hval
          rw [List.foldl_cons]
          rw [if_neg]
          have : 1 * 10 ^ 19 ≤ (10 * 0 + (c.toNat - 48)) * 10 ^ 19 :=
            Nat.mul_le_mul_right _ (by omega)
          omega

/-- The position of array indices in `Object.keys`: when connection `b`
registers first and a connection named `1` second, `Object.keys` lists the
array index `1` before `b` and `selectProvider` returns the entry of `1`. Such
a name is not a connection id socket.io issues; the evaluation marks where the
hypothesis of the selection theorem is needed. -/
theorem selectProvider_array_index_first :
    selectProvider (runRegistry [.register ⟨"b", by decide⟩ "0xA" 5,
        .register ⟨"1", by decide⟩ "0xB" 6])
      = some ⟨⟨"1", by decide⟩, "0xB", 6⟩ ∧
    regTime [.register ⟨"b", by decide⟩ "0xA" 5, .register ⟨"1", by decide⟩ "0xB" 6]
      ⟨"b", by decide⟩ = some 0 ∧
    regTime [.register ⟨"b", by decide⟩ "0xA" 5, .register ⟨"1", by decide⟩ "0xB" 6]
      ⟨"1", by decide⟩ = some 1 := by
  decide

/-- C6. For every registry reached by a sequence of registrations and
disconnects: `selectProvider` returns null if and only if the registry is
empty; and otherwise, the ids now in the registry being connection ids as
socket.io issues them (strings of 20 characters, or more generally names that
are not array indices), the entry it returns is the current entry of a
connection in the registry whose registration time is the earliest of all
connections in the registry. -/
theorem C6_first_registered_wins (ops : List RegistryOp) :
    (selectProvider (runRegistry ops) = none ↔ runRegistry ops = []) ∧
    ((∀ kv ∈ runRegistry ops, kv.1.val.length = 20 ∨ arrayIndex? kv.1.val = none) →
      ∀ e, selectProvider (runRegistry ops) = some e →
        getProp e.socket (runRegistry ops) = some e ∧
        ∃ t, regTime ops e.socket = some t ∧
          ∀ c t', regTime ops c = some t' → t ≤ t') := by
  refine ⟨selectProvider_none_iff _, ?_⟩
  intro hids e he
  obtain ⟨h1, h2, _, h4⟩ := RegInv_runRegistry ops
  have hkeys : ∀ k ∈ (runRegistry ops).map (·.1), arrayIndex? k.val = none := by
    intro k hk
    obtain ⟨kv, hkv, rfl⟩ := List.mem_map.mp hk
    rcases hids kv hkv with h | h
    · exact arrayIndex_none_of_length_20 _ h
    · exact h
  have hok := objectKeys_no_index _ hkeys
  unfold selectProvider at he
  rw [hok] at he
  cases hr : runRegistry ops with
  | nil => rw [hr] at he; exact Option.noConfusion he
  | cons kv rest =>
    rw [hr] at he h1 h2 h4
    simp only [List.map_cons, getProp, if_true] at he
    have hekv : kv.2 = e := Option.some.inj he
    have hsock : e.socket = kv.1 := by rw [← hekv]; exact h4 kv (List.mem_cons_self _ _)
    rw [List.map_cons, List.pairwise_cons] at h2
    refine ⟨?_, ?_⟩
    · rw [hsock]; simp [getProp, hekv]
    · rw [hsock]
      cases hm : regTime ops kv.1 with
      | none =>
        exact absurd (List.mem_cons_self _ _) (by
          have := (h1 kv.1).mp hm
          rwa [List.map_cons] at this)
      | some t =>
        refine ⟨t, rfl, ?_⟩
        intro c t' hc
        have hcin : c ∈ (kv :: rest).map (·.1) := by
          by_contra hn
          have := (h1 c).mpr hn
          rw [hc] at this
          exact Option.noConfusion this
        rw [List.map_cons] at hcin
        rcases List.mem_cons.mp hcin with hceq | hcrest
        · rw [hceq, hm] at hc
          exact Nat.le_of_eq (Option.some.inj hc)
        · obtain ⟨ta, tb, hta, htb, hlt⟩ := h2.1 c hcrest
          rw [hm] at hta
          rw [hc] at htb
          rw [Option.some.inj hta, Option.some.inj htb]
          exact Nat.le_of_lt hlt

/-- Witness of C6: four connections with 20-character ids; the first
registers, the second registers, the first disconnects and a third registers;
a name `1` registered and gone in between does not matter. The entry selected
is that of the second connection, registered at time 1. -/
theorem C6_first_registered_wins_witness :
    ∃ t, regTime [.register ⟨"Ewg3gk3PyBVTNWm9AAAA", by decide⟩ "0xA" 5,
          .register ⟨"Ewg3gk3PyBVTNWm9AAAB", by decide⟩ "0xB" 6,
          .disconnect ⟨"Ewg3gk3PyBVTNWm9AAAA", by decide⟩,
          .register ⟨"1", by decide⟩ "0xC" 7, .disconnect ⟨"1", by decide⟩,
          .register ⟨"Ewg3gk3PyBVTNWm9AAAC", by decide⟩ "0xA" 5]
          ⟨"Ewg3gk3PyBVTNWm9AAAB", by decide⟩ = some t ∧
      ∀ c t', regTime [.register ⟨"Ewg3gk3PyBVTNWm9AAAA", by decide⟩ "0xA" 5,
          .register ⟨"Ewg3gk3PyBVTNWm9AAAB", by decide⟩ "0xB" 6,
          .disconnect ⟨"Ewg3gk3PyBVTNWm9AAAA", by decide⟩,
          .register ⟨"1", by decide⟩ "0xC" 7, .disconnect ⟨"1", by decide⟩,
          .register ⟨"Ewg3gk3PyBVTNWm9AAAC", by decide⟩ "0xA" 5] c = some t' →
        t ≤ t' :=
  ((C6_first_registered_wins [.register ⟨"Ewg3gk3PyBVTNWm9AAAA", by decide⟩ "0xA" 5,
      .register ⟨"Ewg3gk3PyBVTNWm9AAAB", by decide⟩ "0xB" 6,
      .disconnect ⟨"Ewg3gk3PyBVTNWm9AAAA", by decide⟩,
      .register ⟨"1", by decide⟩ "0xC" 7, .disconnect ⟨"1", by decide⟩,
      .register ⟨"Ewg3gk3PyBVTNWm9AAAC", by decide⟩ "0xA" 5]).2
    (by decide)
    ⟨⟨"Ewg3gk3PyBVTNWm9AAAB", by decide⟩, "0xB", 6⟩ (by decide)).2

/-! ### Buffers -/

example : toBase64 [77, 97, 110] = "TWFu".toList := by decide
example : toBase64 [77, 97] = "TWE=".toList := by decide
example : toBase64 [77] = "TQ==".toList := by decide
example : fromBase64 "TWFu".toList = [77, 97, 110] := by decide
example : fromBase64 "TWE=".toList = [77, 97] := by decide
example : fromBase64 "TQ==".toList = [77] := by decide
example : toHex [0, 10, 255] = "000aff".toList := by decide
example : fromBase64 [Char.ofNat 0x154, Char.ofNat 0x157, Char.ofNat 0x146, Char.ofNat 0x175]
    = [77, 97, 110] := by decide
example : fromBase64 (Char.ofNat 0x13D :: "TWFu".toList) = [] := by decide

theorem b64Val_b64Char_fin : ∀ n : Fin 64, b64Val (b64Char n.val) = some n.val := by
  decide

theorem b64Char_ne_pad_fin : ∀ n : Fin 64, (b64Char n.val != '=') = true := by
  decide

theorem b64Val_b64Char (n : Nat) (h : n < 64) : b64Val (b64Char n) = some n :=
  b64Val_b64Char_fin ⟨n, h⟩

theorem b64Char_ne_pad (n : Nat) (h : n < 64) : (b64Char n != '=') = true :=
  b64Char_ne_pad_fin ⟨n, h⟩

theorem toSextets_lt (b : List Byte) : ∀ n ∈ toSextets b, n < 64 := by
  induction b using toSextets.induct with
  | case1 a b c rest ih =>
    intro n hn
    simp only [toSextets, List.mem_cons] at hn
    have ha := a.isLt
    have hb := b.isLt
    have hc := c.isLt
    rcases hn with rfl | rfl | rfl | rfl | hn
    · omega
    · omega
    · omega
    · omega
    · exact ih n hn
  | case2 a b =>
    intro n hn
    simp only [toSextets, List.mem_cons, List.mem_singleton, List.not_mem_nil, or_false] at hn
    have ha := a.isLt
    have hb := b.isLt
    rcases hn with rfl | rfl | rfl <;> omega
  | case3 a =>
    intro n hn
    simp only [toSextets, List.mem_cons, List.mem_singleton, List.not_mem_nil, or_false] at hn
    have ha := a.isLt
    rcases hn with rfl | rfl <;> omega
  | case4 => intro n hn; simp [toSextets] at hn

theorem toBase64_eq (b : List Byte) :
    toBase64 b = (toSextets b).map b64Char ++ b64Padding b.length := by
  induction b using toSextets.induct with
  | case1 a b c rest ih =>
    have hp : b64Padding (a :: b :: c :: rest).length = b64Padding rest.length := by
      simp only [b64Padding, List.length_cons]
      have : (rest.length + 1 + 1 + 1) % 3 = rest.length % 3 := by omega
      simp only [this]
    rw [hp]
    simp only [toBase64, toSextets, List.map_cons, List.cons_append, ih]
  | case2 a b => rfl
  | case3 a => rfl
  | case4 => rfl

theorem fromSextets_toSextets (b : List Byte) : fromSextets (toSextets b) = b := by
  induction b using toSextets.induct with
  | case1 a b c rest ih =>
    simp only [toSextets, fromSextets, ih]
    have ha := a.isLt
    have hb := b.isLt
    have hc := c.isLt
    congr 1
    · apply Fin.ext; simp only [byteOf]; omega
    · congr 1
      · apply Fin.ext; simp only [byteOf]; omega
      · congr 1
        apply Fin.ext; simp only [byteOf]; omega
  | case2 a b =>
    simp only [toSextets, fromSextets]
    have ha := a.isLt
    have hb := b.isLt
    congr 1
    · apply Fin.ext; simp only [byteOf]; omega
    · congr 1
      apply Fin.ext; simp only [byteOf]; omega
  | case3 a =>
    simp only [toSextets, fromSextets]
    have ha := a.isLt
    congr 1
    apply Fin.ext; simp only [byteOf]; omega
  | case4 => rfl

theorem b64Char_small_fin : ∀ n : Fin 64, (b64Char n.val).toNat < 256 := by
  decide

theorem lowByteChars_of_small (l : List Char) (h : ∀ c ∈ l, c.toNat < 256) :
    lowByteChars l = l := by
  induction l with
  | nil => rfl
  | cons c rest ih =>
    have hc : c.toNat < 256 := h c (List.mem_cons_self _ _)
    have hu : utf16Units c = [c.toNat] := by
      unfold utf16Units
      rw [if_pos (by omega)]
    rw [lowByteChars, hu, ih (fun x hx => h x (List.mem_cons_of_mem _ hx))]
    simp only [List.map_cons, List.map_nil, List.singleton_append, Nat.mod_eq_of_lt hc,
      Char.ofNat_toNat]

theorem encoded_small (ns : List Nat) (n : Nat) (h : ∀ x ∈ ns, x < 64) :
    ∀ c ∈ ns.map b64Char ++ b64Padding n, c.toNat < 256 := by
  intro c hc
  rcases List.mem_append.mp hc with h1 | h1
  · obtain ⟨x, hx, rfl⟩ := List.mem_map.mp h1
    exact b64Char_small_fin ⟨x, h x hx⟩
  · have hpad : c = '=' := by
      unfold b64Padding at h1
      split at h1
      · simp only [List.mem_cons, List.mem_singleton, List.not_mem_nil, or_false, or_self] at h1
        exact h1
      · split at h1
        · simpa using h1
        · simp at h1
    rw [hpad]
    decide

theorem takeWhile_filterMap_encoded (ns : List Nat) (n : Nat) (h : ∀ x ∈ ns, x < 64) :
    ((ns.map b64Char ++ b64Padding n).takeWhile (fun c => c != '=')).filterMap b64Val = ns := by
  induction ns with
  | nil =>
    unfold b64Padding
    split
    · rfl
    · split <;> rfl
  | cons x rest ih =>
    have hx : x < 64 := h x (List.mem_cons_self _ _)
    have hrest := ih (fun y hy => h y (List.mem_cons_of_mem _ hy))
    rw [List.map_cons, List.cons_append, List.takeWhile_cons, if_pos (b64Char_ne_pad x hx),
      List.filterMap_cons, b64Val_b64Char x hx]
    simp only [hrest]

theorem sextets_of_encoded (ns : List Nat) (n : Nat) (h : ∀ x ∈ ns, x < 64) :
    sextets (ns.map b64Char ++ b64Padding n) = ns := by
  unfold sextets
  rw [lowByteChars_of_small _ (encoded_small ns n h)]
  exact takeWhile_filterMap_encoded ns n h

/-- Decoding base64 text the way Node does undoes `toString('base64')`. -/
theorem fromBase64_toBase64 (b : List Byte) : fromBase64 (toBase64 b) = b := by
  rw [fromBase64, toBase64_eq, sextets_of_encoded _ _ (toSextets_lt b), fromSextets_toSextets]

/-! ### Paths -/

example : pathJoin ["/home/u".toList, "storage".toList] = "/home/u/storage".toList := by decide
example : pathJoin ["/s".toList, "a_/../x".toList] = "/s/x".toList := by decide
example : pathJoin ["/s".toList, "..".toList] = "/".toList := by decide
example : normalize "a/../../b".toList = "../b".toList := by decide
example : normalize "/a//b/./c/".toList = "/a/b/c/".toList := by decide
example : normalize "./".toList = "./".toList := by decide
example : normalize "..".toList = "..".toList := by decide
example : normalize "/../a".toList = "/a".toList := by decide
example : normalize "a/b/../../..".toList = "..".toList := by decide

/-! ### Fragment dispatcher and provider agent -/

theorem hexDigit_isHex_fin : ∀ n : Fin 16, isHexChar (hexDigit n.val) = true := by
  decide

theorem toHex_length (b : List Byte) : (toHex b).length = 2 * b.length := by
  induction b with
  | nil => rfl
  | cons x rest ih => simp only [toHex, List.length_cons, ih]; omega

theorem toHex_isHex (b : List Byte) : ∀ ch ∈ toHex b, isHexChar ch = true := by
  induction b with
  | nil => intro ch h; simp [toHex] at h
  | cons x rest ih =>
    intro ch h
    simp only [toHex, List.mem_cons] at h
    have hx := x.isLt
    rcases h with rfl | rfl | h
    · exact hexDigit_isHex_fin ⟨x.val / 16, by omega⟩
    · exact hexDigit_isHex_fin ⟨x.val % 16, by omega⟩
    · exact ih ch h

theorem selectProvider_single (kv : ConnId × ProviderEntry) :
    selectProvider [kv] = some kv.2 := by
  unfold selectProvider objectKeys
  cases h : arrayIndex? kv.1.val <;>
    simp [h, sortByIndex, insertByIndex, getProp]

/-- C7. For every upload handled while the registry holds exactly one provider
(the file read succeeding): the handler answers 200 and emits exactly one
`store_file` message, on the socket of that provider's entry; its
originalFileName is the original name of the uploaded file and its fileId is
the hex rendering of the 16 random bytes, a string of exactly 32 characters
each in `0-9a-f`, whatever the bytes are. In a registry built by registrations
and disconnects that socket is the connection the entry is registered under. -/
theorem C7_single_provider_dispatch (providers : Registry)
    (readFileSync : String → Except String (List Byte)) (entropy : Nat → Byte)
    (file : UploadedFile) (data : List Byte)
    (hone : providers.length = 1) (hread : readFileSync file.path = .ok data) :
    ∃ kv msg, providers = [kv] ∧
      (postUpload providers readFileSync entropy (some file)).status = 200 ∧
      (postUpload providers readFileSync entropy (some file)).emitted = [(kv.2.socket, msg)] ∧
      msg.originalFileName = file.originalname ∧
      msg.fileId = String.mk (toHex (randomBytes 16 entropy)) ∧
      msg.fileId.length = 32 ∧
      (∀ ch ∈ msg.fileId.toList, isHexChar ch = true) ∧
      (∀ ops, providers = runRegistry ops → kv.2.socket = kv.1) := by
  obtain ⟨kv, rfl⟩ := List.length_eq_one.mp hone
  refine ⟨kv, ⟨"agreementId", generateFileId entropy, String.mk (toBase64 data),
    file.originalname⟩, rfl, ?_, ?_, rfl, rfl, ?_, ?_, ?_⟩
  · simp [postUpload, encryptFile, hread, selectProvider_single]
  · simp [postUpload, encryptFile, hread, selectProvider_single]
  · show (toHex (randomBytes 16 entropy)).length = 32
    rw [toHex_length]
    simp [randomBytes]
  · intro ch hch
    exact toHex_isHex _ ch hch
  · intro ops hops
    exact (RegInv_runRegistry ops).2.2.2 kv (hops ▸ List.mem_singleton_self kv)

/-- Witness of C7: one registered provider, a three-byte file, all random
bytes zero. -/
theorem C7_single_provider_dispatch_witness :
    ∃ kv msg, [((⟨"s1", by decide⟩ : ConnId), (⟨⟨"s1", by decide⟩, "0xA", 10⟩ : ProviderEntry))]
        = [kv] ∧
      (postUpload [(⟨"s1", by decide⟩, ⟨⟨"s1", by decide⟩, "0xA", 10⟩)]
        (fun _ => .ok [77, 97, 110]) (fun _ => 0) (some ⟨"uploads/x", "Man.txt"⟩)).status = 200 ∧
      (postUpload [(⟨"s1", by decide⟩, ⟨⟨"s1", by decide⟩, "0xA", 10⟩)]
        (fun _ => .ok [77, 97, 110]) (fun _ => 0) (some ⟨"uploads/x", "Man.txt"⟩)).emitted
        = [(kv.2.socket, msg)] ∧
      msg.originalFileName = "Man.txt" ∧
      msg.fileId = String.mk (toHex (randomBytes 16 (fun _ => 0))) ∧
      msg.fileId.length = 32 ∧
      (∀ ch ∈ msg.fileId.toList, isHexChar ch = true) ∧
      (∀ ops, [((⟨"s1", by decide⟩ : ConnId), (⟨⟨"s1", by decide⟩, "0xA", 10⟩ : ProviderEntry))]
        = runRegistry ops → kv.2.socket = kv.1) :=
  C7_single_provider_dispatch [(⟨"s1", by decide⟩, ⟨⟨"s1", by decide⟩, "0xA", 10⟩)]
    (fun _ => .ok [77, 97, 110]) (fun _ => 0) ⟨"uploads/x", "Man.txt"⟩ [77, 97, 110] rfl rfl

/-- C10. For every byte sequence read from the uploaded file, the text
`encryptFile` returns is the base64 rendering of those bytes, and the bytes the
provider agent's `store_file` handler hands to `fs.writeFileSync` for a message
carrying that text are exactly the bytes read. -/
theorem C10_fragment_encoding_round_trip
    (readFileSync : String → Except String (List Byte)) (filePath : String) (b : List Byte)
    (hread : readFileSync filePath = .ok b) :
    encryptFile readFileSync filePath = .ok (String.mk (toBase64 b)) ∧
    ∀ (dirname : String) (writeFileSync : List Char → List Byte → Except String Unit)
      (msg : StoreFileMsg), encryptFile readFileSync filePath = .ok msg.encryptedFragment →
        (onStoreFile dirname writeFileSync msg).data = b := by
  have henc : encryptFile readFileSync filePath = .ok (String.mk (toBase64 b)) := by
    simp [encryptFile, hread]
  refine ⟨henc, ?_⟩
  intro dirname writeFileSync msg hmsg
  rw [henc] at hmsg
  have hfrag : msg.encryptedFragment = String.mk (toBase64 b) := (Except.ok.inj hmsg).symm
  have hdata : fromBase64 msg.encryptedFragment.toList = b := by
    rw [hfrag]
    exact fromBase64_toBase64 b
  unfold onStoreFile
  dsimp only
  split <;> exact hdata

/-- Witness of C10: the bytes of `Man` travel as `TWFu` and are written back
as the same three bytes. -/
theorem C10_fragment_encoding_round_trip_witness :
    encryptFile (fun _ => .ok [77, 97, 110]) "uploads/x" = .ok "TWFu" ∧
    (onStoreFile "/srv" (fun _ _ => .ok ()) ⟨"agreementId", "00ff", "TWFu", "Man.txt"⟩).data
      = [77, 97, 110] :=
  ⟨(C10_fragment_encoding_round_trip (fun _ => .ok [77, 97, 110]) "uploads/x" [77, 97, 110]
      rfl).1,
   (C10_fragment_encoding_round_trip (fun _ => .ok [77, 97, 110]) "uploads/x" [77, 97, 110]
      rfl).2 "/srv" (fun _ _ => .ok ()) ⟨"agreementId", "00ff", "TWFu", "Man.txt"⟩ rfl⟩

theorem splitSlash_ne_nil (l : List Char) : splitSlash l ≠ [] := by
  cases l with
  | nil => simp [splitSlash]
  | cons c rest =>
    unfold splitSlash
    split
    · simp
    · split <;> simp

theorem splitSlash_no_slash (seg : List Char) (h : '/' ∉ seg) : splitSlash seg = [seg] := by
  induction seg with
  | nil => rfl
  | cons c rest ih =>
    have hc : c ≠ '/' := fun e => h (e ▸ List.mem_cons_self _ _)
    have hr : '/' ∉ rest := fun e => h (List.mem_cons_of_mem _ e)
    unfold splitSlash
    rw [if_neg hc, ih hr]

theorem splitSlash_append (a b : List Char) :
    splitSlash (a ++ '/' :: b) = splitSlash a ++ splitSlash b := by
  induction a with
  | nil => simp [splitSlash]
  | cons c rest ih =>
    rw [List.cons_append]
    by_cases hc : c = '/'
    · rw [splitSlash, if_pos hc, ih, splitSlash, if_pos hc, List.cons_append]
    · rw [splitSlash, if_neg hc, ih]
      conv_rhs => rw [splitSlash, if_neg hc]
      cases hs : splitSlash rest with
      | nil => exact absurd hs (splitSlash_ne_nil rest)
      | cons s0 ss => rfl

theorem joinSlash_append_single (R : List (List Char)) (seg : List Char) :
    joinSlash (R ++ [seg]) = slashPrefix R ++ seg := by
  induction R with
  | nil => rfl
  | cons x rest ih =>
    cases hrest : rest ++ [seg] with
    | nil => simp at hrest
    | cons y ys =>
      have e : joinSlash (x :: y :: ys) = x ++ '/' :: joinSlash (y :: ys) := rfl
      rw [List.cons_append, hrest, e, ← hrest, ih, slashPrefix, List.append_assoc,
        List.cons_append]

theorem normStep_ordinary (allow : Bool) (res : List (List Char)) (seg : List Char)
    (h0 : seg ≠ []) (h1 : seg ≠ ['.']) (h2 : seg ≠ ['.', '.']) :
    normStep allow res seg = res ++ [seg] := by
  unfold normStep
  rw [if_neg (by simp [h0, h1]), if_neg h2]

/-- The path `path.join(dir, seg)` ends in `seg`, after a prefix that depends
on `dir` only, for every segment `seg` that is not empty, holds no `/` and is
neither `.` nor `..`. -/
theorem pathJoin_last_segment (dir : List Char) :
    ∃ pre : List Char, ∀ seg : List Char, seg ≠ [] → '/' ∉ seg → seg ≠ ['.'] →
      seg ≠ ['.', '.'] → pathJoin [dir, seg] = pre ++ seg := by
  by_cases hd : dir = []
  · subst hd
    refine ⟨[], ?_⟩
    intro seg h0 hs h1 h2
    have hhead : (seg.head? == some '/') = false := by
      cases seg with
      | nil => exact absurd rfl h0
      | cons c rest =>
        have hc : c ≠ '/' := fun e => hs (e ▸ List.mem_cons_self _ _)
        simp [hc]
    have hlast : (seg.getLast? == some '/') = false := by
      cases hl : seg.getLast? with
      | none => rfl
      | some c =>
        have hc : c ≠ '/' := fun e => hs (e ▸ List.mem_of_getLast?_eq_some hl)
        simp [hc]
    have hp : normalizeString seg true = seg := by
      unfold normalizeString
      rw [splitSlash_no_slash seg hs, List.foldl_cons, List.foldl_nil,
        normStep_ordinary _ _ _ h0 h1 h2]
      rfl
    simp [pathJoin, h0, joinSlash, normalize, hhead, hlast, hp]
  · refine ⟨(if dir.head? == some '/' then ['/'] else []) ++
      slashPrefix ((splitSlash dir).foldl (normStep (!(dir.head? == some '/'))) []), ?_⟩
    intro seg h0 hs h1 h2
    have hne : dir ++ '/' :: seg ≠ [] := by
      cases dir with
      | nil => exact absurd rfl hd
      | cons c rest => simp
    have hhead : (dir ++ '/' :: seg).head? = dir.head? := by
      cases dir with
      | nil => exact absurd rfl hd
      | cons c rest => rfl
    have hlast : ((dir ++ '/' :: seg).getLast? == some '/') = false := by
      have e : dir ++ '/' :: seg = (dir ++ ['/']) ++ seg := by simp
      rw [e, List.getLast?_append_of_ne_nil _ h0]
      cases hl : seg.getLast? with
      | none => rfl
      | some c =>
        have hc : c ≠ '/' := fun e => hs (e ▸ List.mem_of_getLast?_eq_some hl)
        simp [hc]
    have hp : ∀ allow, normalizeString (dir ++ '/' :: seg) allow
        = slashPrefix ((splitSlash dir).foldl (normStep allow) []) ++ seg := by
      intro allow
      unfold normalizeString
      rw [splitSlash_append, splitSlash_no_slash seg hs, List.foldl_append, List.foldl_cons,
        List.foldl_nil, normStep_ordinary _ _ _ h0 h1 h2, joinSlash_append_single]
    have hpne : ∀ allow, normalizeString (dir ++ '/' :: seg) allow ≠ [] := by
      intro allow
      rw [hp allow]
      intro e
      exact h0 (List.append_eq_nil.mp e).2
    have hj : pathJoin [dir, seg] = normalize (dir ++ '/' :: seg) := by
      simp [pathJoin, hd, h0, joinSlash]
    rw [hj]
    unfold normalize
    rw [if_neg hne]
    simp only [hhead, hlast, hpne, if_false, Bool.false_eq_true]
    rw [hp]
    cases dir.head? == some '/' <;> simp

theorem fileName_toList (fileId name : String) :
    (fileId ++ "_" ++ name).toList = fileId.toList ++ '_' :: name.toList := by
  simp [String.toList, String.data_append]

/-- C9 (counterexample). With storage under `/srv`: the distinct fileIds `a`
and `a_b`, with the names `b_c` and `c`, give the one path
`/srv/storage/a_b_c`; and two distinct 32-character hex fileIds with the name
`/../x` both give `/srv/storage/x`, because `path.join` resolves `..`. -/
theorem C9_distinct_fileIds_same_path :
    ("a" ≠ "a_b" ∧ storeFilePath "/srv" "a" "b_c" = storeFilePath "/srv" "a_b" "c") ∧
    ("00000000000000000000000000000000" ≠ "00000000000000000000000000000001" ∧
      storeFilePath "/srv" "00000000000000000000000000000000" "/../x"
        = storeFilePath "/srv" "00000000000000000000000000000001" "/../x" ∧
      storeFilePath "/srv" "00000000000000000000000000000000" "/../x"
        = "/srv/storage/x".toList) := by
  decide

/-- C9 (amended). For every two `store_file` requests whose fileIds are
distinct and of the same length (as the 32-character ids of the coordinator
are), with no `/` in either fileId or either originalFileName, the file paths
`path.join(STORAGE_DIR, fileId + "_" + originalFileName)` are distinct, for
every location of the storage directory. -/
theorem C9_paths_distinct_for_fixed_length_ids (dirname fileId1 fileId2 name1 name2 : String)
    (hne : fileId1 ≠ fileId2) (hlen : fileId1.length = fileId2.length)
    (hid1 : '/' ∉ fileId1.toList) (hid2 : '/' ∉ fileId2.toList)
    (hn1 : '/' ∉ name1.toList) (hn2 : '/' ∉ name2.toList) :
    storeFilePath dirname fileId1 name1 ≠ storeFilePath dirname fileId2 name2 := by
  have good : ∀ (a b : String), '/' ∉ a.toList → '/' ∉ b.toList →
      (a ++ "_" ++ b).toList ≠ [] ∧ '/' ∉ (a ++ "_" ++ b).toList ∧
      (a ++ "_" ++ b).toList ≠ ['.'] ∧ (a ++ "_" ++ b).toList ≠ ['.', '.'] := by
    intro a b ha hb
    rw [fileName_toList]
    have hmem : '_' ∈ a.toList ++ '_' :: b.toList := by simp
    refine ⟨?_, ?_, ?_, ?_⟩
    · intro e; rw [e] at hmem; exact absurd hmem (List.not_mem_nil _)
    · intro hin
      rcases List.mem_append.mp hin with h | h
      · exact ha h
      · rcases List.mem_cons.mp h with h | h
        · exact absurd h (by decide)
        · exact hb h
    · intro e; rw [e] at hmem; revert hmem; decide
    · intro e; rw [e] at hmem; revert hmem; decide
  obtain ⟨pre, hpre⟩ := pathJoin_last_segment (STORAGE_DIR dirname)
  obtain ⟨g1, g2, g3, g4⟩ := good fileId1 name1 hid1 hn1
  obtain ⟨k1, k2, k3, k4⟩ := good fileId2 name2 hid2 hn2
  intro heq
  unfold storeFilePath at heq
  rw [hpre _ g1 g2 g3 g4, hpre _ k1 k2 k3 k4] at heq
  have hseg := List.append_cancel_left heq
  rw [fileName_toList, fileName_toList] at hseg
  have hids : fileId1.toList = fileId2.toList := (List.append_inj hseg hlen).1
  exact hne (String.ext hids)

/-- Witness of C9 (amended): two 4-character ids with the same file name. -/
theorem C9_paths_distinct_for_fixed_length_ids_witness :
    storeFilePath "/srv" "00ff" "Man.txt" ≠ storeFilePath "/srv" "00fe" "Man.txt" :=
  C9_paths_distinct_for_fixed_length_ids "/srv" "00ff" "00fe" "Man.txt" "Man.txt"
    (by decide) (by decide) (by decide) (by decide) (by decide) (by decide)

/-! ### Agreement by id -/

example : isNaN "abc" = true := by decide
example : isNaN "999999" = false := by decide
example : isNaN "1e3" = false := by decide
example : isNaN " 12 " = false := by decide
example : isNaN "0x1F" = false := by decide
example : isNaN "-0x1F" = true := by decide
example : isNaN "Infinity" = false := by decide
example : isNaN "-.5e+3" = false := by decide
example : isNaN "." = true := by decide
example : isNaN "1e" = true := by decide
example : isNaN "12abc" = true := by decide
example : isNaN "1_000" = true := by decide
example : isNaN "0x" = true := by decide
example : isNaN "5." = false := by decide

theorem digit_not_whiteSpace (c : Char) (h : isDecDigit c = true) : isStrWhiteSpace c = false := by
  simp only [isDecDigit, Bool.and_eq_true, decide_eq_true_eq] at h
  simp only [isStrWhiteSpace, Bool.or_eq_false_iff, Bool.and_eq_false_iff, decide_eq_false_iff_not]
  omega

theorem dropWhile_head_false {α : Type} (p : α → Bool) (l : List α)
    (h : ∀ x, l.head? = some x → p x = false) : l.dropWhile p = l := by
  cases l with
  | nil => rfl
  | cons x rest => rw [List.dropWhile_cons, if_neg (by simp [h x rfl])]

theorem trimWhiteSpace_digits (cs : List Char) (h : ∀ c ∈ cs, isDecDigit c = true) :
    trimWhiteSpace cs = cs := by
  unfold trimWhiteSpace
  rw [dropWhile_head_false _ cs (fun x hx =>
    digit_not_whiteSpace x (h x (List.mem_of_mem_head? hx)))]
  rw [dropWhile_head_false _ cs.reverse (fun x hx =>
    digit_not_whiteSpace x (h x (List.mem_reverse.mp (List.mem_of_mem_head? hx))))]
  exact List.reverse_reverse cs

theorem isMantissa_digits (cs : List Char) (hne : cs ≠ []) (h : ∀ c ∈ cs, isDecDigit c = true) :
    isMantissa cs = true := by
  have h1 : cs.takeWhile isDecDigit = cs := List.takeWhile_eq_self_iff.mpr h
  have h2 : cs.dropWhile isDecDigit = [] := List.dropWhile_eq_nil_iff.mpr h
  unfold isMantissa
  rw [h1, h2]
  cases cs with
  | nil => exact absurd rfl hne
  | cons c rest => rfl

theorem isUnsignedDecimal_digits (cs : List Char) (hne : cs ≠ [])
    (h : ∀ c ∈ cs, isDecDigit c = true) : isUnsignedDecimal cs = true := by
  have hp : ∀ c ∈ cs, (c != 'e' && c != 'E') = true := by
    intro c hc
    have hd := h c hc
    simp only [isDecDigit, Bool.and_eq_true, decide_eq_true_eq] at hd
    have he : c ≠ 'e' := by
      intro e; rw [e] at hd; revert hd; decide
    have hE : c ≠ 'E' := by
      intro e; rw [e] at hd; revert hd; decide
    simp [he, hE]
  have h1 : cs.takeWhile (fun c => c != 'e' && c != 'E') = cs :=
    List.takeWhile_eq_self_iff.mpr hp
  have h2 : cs.dropWhile (fun c => c != 'e' && c != 'E') = [] :=
    List.dropWhile_eq_nil_iff.mpr hp
  unfold isUnsignedDecimal
  rw [h1, h2, isMantissa_digits cs hne h]
  simp

theorem isStrDecimal_digits (cs : List Char) (hne : cs ≠ [])
    (h : ∀ c ∈ cs, isDecDigit c = true) : isStrDecimal cs = true := by
  unfold isStrDecimal
  split
  · exact absurd (h '+' (List.mem_cons_self _ _)) (by decide)
  · exact absurd (h '-' (List.mem_cons_self _ _)) (by decide)
  · exact isUnsignedDecimal_digits cs hne h

/-- A non-empty text of decimal digits is numeric for `isNaN`. -/
theorem isNaN_digits (id : String) (hne : id.toList ≠ [])
    (h : ∀ c ∈ id.toList, isDecDigit c = true) : isNaN id = false := by
  unfold isNaN isStringNumericLiteral
  simp only [trimWhiteSpace_digits _ h, isStrDecimal_digits _ hne h, Bool.or_true, Bool.true_or,
    Bool.not_true]

/-- C8. For every collection of agreements, every cast of the `agreementId`
filter and every id passed to `GET /agreements/:id`: if the id is non-numeric
(`isNaN(id)`, as for `abc`) the response is 400, no query reaches the store
and the store is unchanged; if the id is numeric (as every text of decimal
digits is, `999999` among them) and no stored agreement has that agreementId,
the response is 404, after one query, and the store is unchanged. -/
theorem C8_agreement_by_id_errors (idMatches : String → Nat → Bool) (store : List Agreement)
    (id : String) :
    (isNaN id = true →
      getAgreementById idMatches store id
        = ⟨.error 400 "Invalid agreement ID", [], store⟩) ∧
    (isNaN id = false → (∀ a ∈ store, idMatches id a.agreementId = false) →
      getAgreementById idMatches store id
        = ⟨.error 404 "Agreement not found", [id], store⟩) ∧
    (getAgreementById idMatches store id).store = store ∧
    (id.toList ≠ [] → (∀ c ∈ id.toList, isDecDigit c = true) → isNaN id = false) ∧
    isNaN "abc" = true ∧ isNaN "999999" = false := by
  refine ⟨?_, ?_, ?_, isNaN_digits id, by decide, by decide⟩
  · intro h
    simp [getAgreementById, h]
  · intro h hno
    have hfind : store.find? (fun a => idMatches id a.agreementId) = none := by
      rw [List.find?_eq_none]
      intro a ha
      simp [hno a ha]
    simp [getAgreementById, h, hfind]
  · unfold getAgreementById
    split
    · rfl
    · split <;> rfl

/-- Witness of C8: the ids `abc` and `999999` against a collection that holds
agreement 1 only, ids compared by their decimal value. -/
theorem C8_agreement_by_id_errors_witness :
    getAgreementById (fun s n => decide (decimalValue s.toList = n))
        [⟨1, "0xC", "0xP", 100, 1000, 0, 864000, true⟩] "abc"
      = ⟨.error 400 "Invalid agreement ID", [],
          [⟨1, "0xC", "0xP", 100, 1000, 0, 864000, true⟩]⟩ ∧
    getAgreementById (fun s n => decide (decimalValue s.toList = n))
        [⟨1, "0xC", "0xP", 100, 1000, 0, 864000, true⟩] "999999"
      = ⟨.error 404 "Agreement not found", ["999999"],
          [⟨1, "0xC", "0xP", 100, 1000, 0, 864000, true⟩]⟩ :=
  ⟨(C8_agreement_by_id_errors (fun s n => decide (decimalValue s.toList = n))
      [⟨1, "0xC", "0xP", 100, 1000, 0, 864000, true⟩] "abc").1 (by decide),
   (C8_agreement_by_id_errors (fun s n => decide (decimalValue s.toList = n))
      [⟨1, "0xC", "0xP", 100, 1000, 0, 864000, true⟩] "999999").2.1 (by decide) (by decide)⟩

/-! ### Agreements: the derived price -/

example : roundCore 1 10 = (7205759403792794, -56) := by decide
example : roundCore (2 ^ 53 + 1) 1 = (4503599627370496, 1) := by decide
example : roundCore (2 ^ 53 + 3) 1 = (4503599627370498, 1) := by decide

theorem log2Aux_eq (fuel : Nat) : ∀ n, n ≤ fuel → log2Aux fuel n = Nat.log2 n := by
  induction fuel with
  | zero =>
    intro n hn
    have : n = 0 := by omega
    subst this
    rw [Nat.log2]; simp [log2Aux]
  | succ f ih =>
    intro n hn
    rw [log2Aux, Nat.log2]
    by_cases h : 2 ≤ n
    · rw [if_pos h, if_pos h, ih (n / 2) (by omega)]
    · rw [if_neg h, if_neg h]

theorem floorLog2_eq (n : Nat) : floorLog2 n = Nat.log2 n := log2Aux_eq n n (Nat.le_refl n)

theorem divRoundEven_one (N : Nat) : divRoundEven N 1 = N := by
  unfold divRoundEven
  simp only [Nat.mod_one, Nat.div_one]
  rfl

theorem roundCore_nat_value (n : Nat) (h0 : 0 < n) (h : n < 2 ^ 53) :
    ((roundCore n 1).1 : ℚ) * 2 ^ (roundCore n 1).2 = n := by
  have hne : n ≠ 0 := Nat.pos_iff_ne_zero.mp h0
  have ha : Nat.log2 n < 53 := (Nat.log2_lt hne).mpr h
  have hle : 2 ^ Nat.log2 n ≤ n := Nat.log2_self_le hne
  have hb : floorLog2 1 = 0 := by decide
  have hbin : binade n 1 = (Nat.log2 n : Int) := by
    unfold binade
    simp only [floorLog2_eq n, hb, Nat.zero_le, if_true, Nat.sub_zero, Nat.one_mul, hle]
  unfold roundCore
  simp only [hbin]
  have hmax : max (Nat.log2 n : Int) (-1022) = (Nat.log2 n : Int) := by
    apply max_eq_left; omega
  rw [hmax]
  by_cases hk : (0 : Int) ≤ (Nat.log2 n : Int) - 52
  · have h52 : Nat.log2 n = 52 := by omega
    rw [if_pos hk]
    simp [h52, divRoundEven_one]
  · rw [if_neg hk]
    simp only [divRoundEven_one]
    have hj : (-((Nat.log2 n : Int) - 52)).toNat = 52 - Nat.log2 n := by omega
    have hz : ((Nat.log2 n : Int) - 52) = -((52 - Nat.log2 n : Nat) : Int) := by omega
    rw [hj, hz, zpow_neg, zpow_natCast]
    push_cast
    field_simp

/-- A natural number below `2^53` is a binary64 number: rounding leaves it as
it is. -/
theorem roundDouble_nat (n : Nat) (h : n < 2 ^ 53) : roundDouble (n : ℚ) = n := by
  unfold roundDouble
  by_cases h0 : n = 0
  · simp [h0]
  · have hpos : 0 < n := Nat.pos_of_ne_zero h0
    have hq : (0 : ℚ) < n := by exact_mod_cast hpos
    rw [if_neg (ne_of_gt hq), if_pos hq]
    simp only [Rat.num_natCast, Rat.den_natCast, Int.natAbs_ofNat]
    exact roundCore_nat_value n hpos h

/-- The rounding of a positive fraction in lowest terms, from its significand
and exponent. -/
theorem roundDouble_fraction (n d : Nat) (hd : 0 < d) (hn : 0 < n) (hc : Nat.Coprime n d) :
    roundDouble ((n : ℚ) / d) = ((roundCore n d).1 : ℚ) * 2 ^ (roundCore n d).2 := by
  have hq : (0 : ℚ) < (n : ℚ) / d := by positivity
  have hnum : ((n : ℚ) / d).num = n := by
    have := Rat.num_div_eq_of_coprime (a := (n : ℤ)) (b := (d : ℤ)) (by exact_mod_cast hd)
      (by simpa using hc)
    simpa using this
  have hden : ((n : ℚ) / d).den = d := by
    have := Rat.den_div_eq_of_coprime (a := (n : ℤ)) (b := (d : ℤ)) (by exact_mod_cast hd)
      (by simpa using hc)
    simpa using this
  unfold roundDouble
  rw [if_neg (ne_of_gt hq), if_pos hq, hnum, hden]
  simp

theorem roundDouble_eval (q : ℚ) (n d M : Nat) (k : Int) (hq : q = (n : ℚ) / d)
    (hd : 0 < d) (hn : 0 < n) (hc : Nat.Coprime n d) (hcore : roundCore n d = (M, k)) :
    roundDouble q = (M : ℚ) * 2 ^ k := by
  rw [hq, roundDouble_fraction n d hd hn hc, hcore]

theorem price_at_two_pow_70 :
    pricePerGBPerDay ⟨uint256 1, "0xC", "0xP", uint256 100, uint256 1000, uint256 (2 ^ 70),
        uint256 (2 ^ 70 + 864000)⟩ = .finite (1125 / 1024) := by
  have hv1 : (uint256 100).val = 100 := by decide
  have hv2 : (uint256 1000).val = 1000 := by decide
  have hv3 : (uint256 (2 ^ 70)).val = 1180591620717411303424 := by decide
  have hv4 : (uint256 (2 ^ 70 + 864000)).val = 1180591620717412167424 := by decide
  have r1 : roundDouble (1180591620717412167424 : ℚ) = 1180591620717412089856 := by
    rw [roundDouble_eval _ 1180591620717412167424 1 4503599627370499 18 (by norm_num)
      (by norm_num) (by norm_num) (by norm_num) (by decide)]
    norm_num
  have r2 : roundDouble (1180591620717411303424 : ℚ) = 1180591620717411303424 := by
    rw [roundDouble_eval _ 1180591620717411303424 1 4503599627370496 18 (by norm_num)
      (by norm_num) (by norm_num) (by norm_num) (by decide)]
    norm_num
  have r3 : roundDouble (786432 : ℚ) = 786432 := by
    have := roundDouble_nat 786432 (by norm_num)
    simpa using this
  have r4 : roundDouble (2048 / 225 : ℚ) = 5124095576030431 / 562949953421312 := by
    rw [roundDouble_eval _ 2048 225 5124095576030431 (-49) (by norm_num)
      (by norm_num) (by norm_num) (by norm_num) (by decide)]
    norm_num
  have r5 : roundDouble (128102389400760775 / 140737488355328 : ℚ)
      = 2001599834386887 / 2199023255552 := by
    rw [roundDouble_eval _ 128102389400760775 140737488355328 8006399337547548 (-43)
      (by norm_num) (by norm_num) (by norm_num) (by norm_num) (by decide)]
    norm_num
  have r6 : roundDouble (2199023255552000 / 2001599834386887 : ℚ) = 1125 / 1024 := by
    rw [roundDouble_eval _ 2199023255552000 2001599834386887 4947802324992000 (-52)
      (by norm_num) (by norm_num) (by norm_num) (by norm_num) (by decide)]
    norm_num
  have r7 : roundDouble (100 : ℚ) = 100 := by
    have := roundDouble_nat 100 (by norm_num)
    simpa using this
  have r8 : roundDouble (1000 : ℚ) = 1000 := by
    have := roundDouble_nat 1000 (by norm_num)
    simpa using this
  simp only [pricePerGBPerDay, durationInDays, toNumber, jsDiv, hv1, hv2, hv3, hv4]
  norm_num [r1, r2, r3, r4, r5, r6, r7, r8]

theorem price_of_one_third :
    pricePerGBPerDay ⟨uint256 2, "0xC", "0xP", uint256 3, uint256 1, uint256 0,
        uint256 86400⟩ = .finite (6004799503160661 / 18014398509481984) := by
  have hv1 : (uint256 3).val = 3 := by decide
  have hv2 : (uint256 1).val = 1 := by decide
  have hv3 : (uint256 0).val = 0 := by decide
  have hv4 : (uint256 86400).val = 86400 := by decide
  have r0 : roundDouble (0 : ℚ) = 0 := by simp [roundDouble]
  have r1 : roundDouble (86400 : ℚ) = 86400 := by
    have := roundDouble_nat 86400 (by norm_num)
    simpa using this
  have r2 : roundDouble (1 : ℚ) = 1 := by
    have := roundDouble_nat 1 (by norm_num)
    simpa using this
  have r3 : roundDouble (3 : ℚ) = 3 := by
    have := roundDouble_nat 3 (by norm_num)
    simpa using this
  have r4 : roundDouble (1 / 3 : ℚ) = 6004799503160661 / 18014398509481984 := by
    rw [roundDouble_eval _ 1 3 6004799503160661 (-54) (by norm_num)
      (by norm_num) (by norm_num) (by norm_num) (by decide)]
    norm_num
  simp only [pricePerGBPerDay, durationInDays, toNumber, jsDiv, hv1, hv2, hv3, hv4]
  norm_num [r0, r1, r2, r3, r4]

/-- The derived price is the exact quotient when the four fields are below
`2^53` and the duration in days, capacity times duration, and the quotient are
binary64 numbers (rounding leaves each as it is). -/
theorem price_exact_of_representable (ev : AgreementCreated)
    (hcap : 0 < ev.capacity.val) (hlt : ev.startTime.val < ev.endTime.val)
    (hend : ev.endTime.val < 2 ^ 53) (hcap53 : ev.capacity.val < 2 ^ 53)
    (htot : ev.totalPrice.val < 2 ^ 53)
    (hD : roundDouble (((ev.endTime.val : ℚ) - (ev.startTime.val : ℚ)) / 86400)
      = ((ev.endTime.val : ℚ) - (ev.startTime.val : ℚ)) / 86400)
    (hP : roundDouble ((ev.capacity.val : ℚ) *
        (((ev.endTime.val : ℚ) - (ev.startTime.val : ℚ)) / 86400))
      = (ev.capacity.val : ℚ) * (((ev.endTime.val : ℚ) - (ev.startTime.val : ℚ)) / 86400))
    (hQ : roundDouble ((ev.totalPrice.val : ℚ) / ((ev.capacity.val : ℚ) *
        (((ev.endTime.val : ℚ) - (ev.startTime.val : ℚ)) / 86400)))
      = (ev.totalPrice.val : ℚ) / ((ev.capacity.val : ℚ) *
        (((ev.endTime.val : ℚ) - (ev.startTime.val : ℚ)) / 86400))) :
    pricePerGBPerDay ev = .finite ((ev.totalPrice.val : ℚ) /
      ((ev.capacity.val : ℚ) * (((ev.endTime.val : ℚ) - (ev.startTime.val : ℚ)) / 86400))) := by
  have hstart : ev.startTime.val < 2 ^ 53 := by omega
  have hsub : (ev.endTime.val : ℚ) - (ev.startTime.val : ℚ)
      = ((ev.endTime.val - ev.startTime.val : ℕ) : ℚ) := by
    rw [Nat.cast_sub (Nat.le_of_lt hlt)]
  have hsub53 : ev.endTime.val - ev.startTime.val < 2 ^ 53 := by omega
  have hdiffR : roundDouble ((ev.endTime.val : ℚ) - (ev.startTime.val : ℚ))
      = (ev.endTime.val : ℚ) - (ev.startTime.val : ℚ) := by
    rw [hsub]; exact roundDouble_nat _ hsub53
  have hne : (ev.capacity.val : ℚ) *
      (((ev.endTime.val : ℚ) - (ev.startTime.val : ℚ)) / 86400) ≠ 0 := by
    have h1 : (0 : ℚ) < ev.capacity.val := by exact_mod_cast hcap
    have h2 : (0 : ℚ) < (ev.endTime.val : ℚ) - (ev.startTime.val : ℚ) := by
      have : (ev.startTime.val : ℚ) < ev.endTime.val := by exact_mod_cast hlt
      linarith
    positivity
  unfold pricePerGBPerDay durationInDays toNumber jsDiv
  rw [roundDouble_nat _ hend, roundDouble_nat _ hstart, hdiffR, hD,
    roundDouble_nat _ hcap53, hP, roundDouble_nat _ htot, if_neg hne, hQ]

/-- The derived price is the exact quotient when the fields are below `2^53`,
the duration is a whole number of days, and capacity times days is below
`2^53` and divides the total price. -/
theorem price_exact (ev : AgreementCreated) (days : Nat)
    (hcap : 0 < ev.capacity.val) (hdays : 0 < days)
    (hdur : ev.endTime.val = ev.startTime.val + 86400 * days)
    (hend : ev.endTime.val < 2 ^ 53) (htot : ev.totalPrice.val < 2 ^ 53)
    (hprod : ev.capacity.val * days < 2 ^ 53)
    (hdiv : ev.capacity.val * days ∣ ev.totalPrice.val) :
    pricePerGBPerDay ev = .finite ((ev.totalPrice.val : ℚ) /
      ((ev.capacity.val : ℚ) * (((ev.endTime.val : ℚ) - (ev.startTime.val : ℚ)) / 86400))) := by
  obtain ⟨m, hm⟩ := hdiv
  have hcd : 0 < ev.capacity.val * days := Nat.mul_pos hcap hdays
  have hstart : ev.startTime.val < 2 ^ 53 := by omega
  have hsec : 86400 * days < 2 ^ 53 := by omega
  have hdays53 : days < 2 ^ 53 := by omega
  have hcap53 : ev.capacity.val < 2 ^ 53 :=
    Nat.lt_of_le_of_lt (Nat.le_mul_of_pos_right _ hdays) hprod
  have hm53 : m < 2 ^ 53 := by
    have : m ≤ ev.totalPrice.val := by
      rw [hm]; exact Nat.le_mul_of_pos_left _ hcd
    omega
  have hdiff : (ev.endTime.val : ℚ) - (ev.startTime.val : ℚ) = ((86400 * days : ℕ) : ℚ) := by
    rw [hdur]; push_cast; ring
  have hq : ((86400 * days : ℕ) : ℚ) / 86400 = (days : ℚ) := by
    push_cast; field_simp
  have hmul : (ev.capacity.val : ℚ) * (days : ℚ) = ((ev.capacity.val * days : ℕ) : ℚ) := by
    push_cast; ring
  have hne : ((ev.capacity.val * days : ℕ) : ℚ) ≠ 0 := by
    exact_mod_cast Nat.pos_iff_ne_zero.mp hcd
  have hquot : (ev.totalPrice.val : ℚ) / ((ev.capacity.val * days : ℕ) : ℚ) = (m : ℚ) := by
    rw [hm]; push_cast; field_simp
  unfold pricePerGBPerDay durationInDays toNumber jsDiv
  rw [roundDouble_nat _ hend, roundDouble_nat _ hstart, hdiff, roundDouble_nat _ hsec, hq,
    roundDouble_nat _ hdays53, roundDouble_nat _ hcap53, hmul, roundDouble_nat _ hprod,
    roundDouble_nat _ htot, if_neg hne, hquot, roundDouble_nat _ hm53]

/-- C4 (counterexample). Both events have capacity above 0 and endTime above
startTime. For capacity 100, totalPrice 1000, startTime `2^70` and endTime
`2^70 + 864000` the handler computes 1125/1024 = 1.0986328125, not 1: the two
times are rounded to binary64 before they are subtracted. For capacity 3,
totalPrice 1 and one day it computes 6004799503160661 / 2^54, the binary64
number nearest to one third, not the quotient 1/3. -/
theorem C4_price_is_a_rounded_double :
    (pricePerGBPerDay ⟨uint256 1, "0xC", "0xP", uint256 100, uint256 1000, uint256 (2 ^ 70),
        uint256 (2 ^ 70 + 864000)⟩ = .finite (1125 / 1024) ∧
      JSNumber.finite (1125 / 1024) ≠ .finite 1) ∧
    (pricePerGBPerDay ⟨uint256 2, "0xC", "0xP", uint256 3, uint256 1, uint256 0,
        uint256 86400⟩ = .finite (6004799503160661 / 18014398509481984) ∧
      JSNumber.finite (6004799503160661 / 18014398509481984)
        ≠ .finite ((1 : ℚ) / (3 * ((86400 - 0) / 86400)))) := by
  refine ⟨⟨price_at_two_pow_70, ?_⟩, ⟨price_of_one_third, ?_⟩⟩
  · intro h
    have := JSNumber.finite.inj h
    norm_num at this
  · intro h
    have := JSNumber.finite.inj h
    norm_num at this

/-- C4 (amended). For every `AgreementCreated` event with capacity above 0 and
endTime above startTime whose capacity, totalPrice and endTime are below
`2^53`: when durationDays = (endTime - startTime) / 86400, capacity *
durationDays and totalPrice / (capacity * durationDays) are binary64 numbers,
the agreement stored by an accepted save carries exactly that quotient as
pricePerGBPerDay. That is the case when the duration is a whole number of days
and capacity times that number is below `2^53` and divides totalPrice; in
particular for capacity 100, totalPrice 1000 and endTime = startTime + 864000
below `2^53` the value is exactly 1. -/
theorem C4_price_exact_on_representable_terms :
    (∀ (ev : AgreementCreated)
        (saveAccepts : AgreementDocument → List AgreementDocument → Bool)
        (store : List AgreementDocument),
        0 < ev.capacity.val → ev.startTime.val < ev.endTime.val →
        ev.endTime.val < 2 ^ 53 → ev.capacity.val < 2 ^ 53 → ev.totalPrice.val < 2 ^ 53 →
        roundDouble (((ev.endTime.val : ℚ) - (ev.startTime.val : ℚ)) / 86400)
          = ((ev.endTime.val : ℚ) - (ev.startTime.val : ℚ)) / 86400 →
        roundDouble ((ev.capacity.val : ℚ) *
            (((ev.endTime.val : ℚ) - (ev.startTime.val : ℚ)) / 86400))
          = (ev.capacity.val : ℚ) * (((ev.endTime.val : ℚ) - (ev.startTime.val : ℚ)) / 86400) →
        roundDouble ((ev.totalPrice.val : ℚ) / ((ev.capacity.val : ℚ) *
            (((ev.endTime.val : ℚ) - (ev.startTime.val : ℚ)) / 86400)))
          = (ev.totalPrice.val : ℚ) / ((ev.capacity.val : ℚ) *
            (((ev.endTime.val : ℚ) - (ev.startTime.val : ℚ)) / 86400)) →
        saveAccepts (newAgreement ev) store = true →
        ∃ a, onAgreementCreated saveAccepts ev store = store ++ [a] ∧
          a.agreementId = ev.agreementId.val ∧
          a.pricePerGBPerDay = .finite ((ev.totalPrice.val : ℚ) /
            ((ev.capacity.val : ℚ) *
              (((ev.endTime.val : ℚ) - (ev.startTime.val : ℚ)) / 86400)))) ∧
    (∀ (ev : AgreementCreated) (days : Nat),
        0 < ev.capacity.val → 0 < days →
        ev.endTime.val = ev.startTime.val + 86400 * days →
        ev.endTime.val < 2 ^ 53 → ev.totalPrice.val < 2 ^ 53 →
        ev.capacity.val * days < 2 ^ 53 → ev.capacity.val * days ∣ ev.totalPrice.val →
        pricePerGBPerDay ev = .finite ((ev.totalPrice.val : ℚ) /
          ((ev.capacity.val : ℚ) *
            (((ev.endTime.val : ℚ) - (ev.startTime.val : ℚ)) / 86400)))) ∧
    (∀ (T : Nat) (agreementId : UInt256) (consumer provider : String),
        T + 864000 < 2 ^ 53 →
        pricePerGBPerDay ⟨agreementId, consumer, provider, uint256 100, uint256 1000,
          uint256 T, uint256 (T + 864000)⟩ = .finite 1) := by
  refine ⟨?_, ?_, ?_⟩
  · intro ev saveAccepts store hcap hlt hend hcap53 htot hD hP hQ hsave
    refine ⟨newAgreement ev, ?_, rfl, ?_⟩
    · simp [onAgreementCreated, hsave]
    · exact price_exact_of_representable ev hcap hlt hend hcap53 htot hD hP hQ
  · intro ev days hcap hdays hdur hend htot hprod hdiv
    exact price_exact ev days hcap hdays hdur hend htot hprod hdiv
  · intro T agreementId consumer provider hT
    have hbig : (2 : Nat) ^ 53 < 2 ^ 256 := by norm_num
    have hvT : (uint256 T).val = T := Nat.mod_eq_of_lt (by omega)
    have hvE : (uint256 (T + 864000)).val = T + 864000 := Nat.mod_eq_of_lt (by omega)
    have hv1 : (uint256 100).val = 100 := by decide
    have hv2 : (uint256 1000).val = 1000 := by decide
    have h := price_exact ⟨agreementId, consumer, provider, uint256 100, uint256 1000,
      uint256 T, uint256 (T + 864000)⟩ 10
      (by simp only [hv1]; norm_num) (by norm_num)
      (by simp only [hvT, hvE])
      (by simp only [hvE]; exact hT) (by simp only [hv2]; norm_num)
      (by simp only [hv1]; norm_num) (by simp only [hv1, hv2]; norm_num)
    rw [h]
    refine congrArg JSNumber.finite ?_
    simp only [hvT, hvE, hv1, hv2]
    push_cast
    field_simp
    ring

/-- Witness of C4 (amended): capacity 2, totalPrice 1 and half a day from
startTime 1700000000, saved into the empty collection by a schema that accepts
every document: the three values 1/2, 1 and 1 are binary64 numbers and the
stored price is the quotient. -/
theorem C4_price_exact_on_representable_terms_witness :
    ∃ a, onAgreementCreated (fun _ _ => true)
        ⟨uint256 7, "0xC", "0xP", uint256 2, uint256 1, uint256 1700000000,
          uint256 1700043200⟩ [] = [] ++ [a] ∧
      a.agreementId = (uint256 7).val ∧
      a.pricePerGBPerDay = .finite (((uint256 1).val : ℚ) /
        (((uint256 2).val : ℚ) *
          ((((uint256 1700043200).val : ℚ) - ((uint256 1700000000).val : ℚ)) / 86400))) :=
  C4_price_exact_on_representable_terms.1
    ⟨uint256 7, "0xC", "0xP", uint256 2, uint256 1, uint256 1700000000,
      uint256 1700043200⟩ (fun _ _ => true) []
    (by decide) (by decide) (by decide) (by decide) (by decide)
    (by
      have e : ((((uint256 1700043200).val : ℚ) - ((uint256 1700000000).val : ℚ)) / 86400)
          = ((1 : ℕ) : ℚ) / (2 : ℕ) := by
        rw [show (uint256 1700043200).val = 1700043200 by decide,
          show (uint256 1700000000).val = 1700000000 by decide]
        norm_num
      show roundDouble ((((uint256 1700043200).val : ℚ) - ((uint256 1700000000).val : ℚ))
        / 86400) = _
      rw [e, roundDouble_eval _ 1 2 4503599627370496 (-53) rfl (by norm_num) (by norm_num)
        (by norm_num) (by decide)]
      norm_num)
    (by
      have e : (((uint256 2).val : ℚ) *
          ((((uint256 1700043200).val : ℚ) - ((uint256 1700000000).val : ℚ)) / 86400))
          = ((1 : ℕ) : ℚ) := by
        rw [show (uint256 1700043200).val = 1700043200 by decide,
          show (uint256 1700000000).val = 1700000000 by decide,
          show (uint256 2).val = 2 by decide]
        norm_num
      show roundDouble (((uint256 2).val : ℚ) *
        ((((uint256 1700043200).val : ℚ) - ((uint256 1700000000).val : ℚ)) / 86400)) = _
      rw [e]
      exact roundDouble_nat 1 (by norm_num))
    (by
      have e : (((uint256 1).val : ℚ) / (((uint256 2).val : ℚ) *
          ((((uint256 1700043200).val : ℚ) - ((uint256 1700000000).val : ℚ)) / 86400)))
          = ((1 : ℕ) : ℚ) := by
        rw [show (uint256 1700043200).val = 1700043200 by decide,
          show (uint256 1700000000).val = 1700000000 by decide,
          show (uint256 2).val = 2 by decide, show (uint256 1).val = 1 by decide]
        norm_num
      show roundDouble (((uint256 1).val : ℚ) / (((uint256 2).val : ℚ) *
        ((((uint256 1700043200).val : ℚ) - ((uint256 1700000000).val : ℚ)) / 86400))) = _
      rw [e]
      exact roundDouble_nat 1 (by norm_num))
    rfl

end BlockFinal
